import Mathlib

/-!
# Verification of the vpn_checker repository's parser and checker

Shallow embedding of the Go sources:
* `internal/parser/parser.go` — URI parser for vless/ss/vmess/trojan links,
  the shared base64 userinfo decoder, and the port/aid coercion helper.
* `internal/checker` (the checker package file) — `CheckConfig`, `CheckAll`,
  `waitForPort`.

Go strings are modelled as Lean `String`s whose characters carry the byte
values of the Go string; for the ASCII inputs exercised here the two views
coincide (one `Char` per byte).  Byte strings produced by base64 decoding are
modelled as `List Nat` with every entry `< 256` and converted back to `String`
via `Char.ofNat`, mirroring Go's `string(b)` conversion byte for byte.
Go `int` is modelled as `Int`, `time.Duration` as a count of milliseconds.
-/

namespace VpnChecker

/-! ## Percent decoding (model of net/url's unescape)

`unescapeChars plusToSpace` models Go `net/url.unescape`: a `%` must be
followed by two hex digits (otherwise the whole unescape errors), and in
query mode (`plusToSpace = true`, as in `url.QueryUnescape`) a `+` becomes a
space.  Other characters pass through unchanged. -/

def hexVal (c : Char) : Option Nat :=
  if '0' ≤ c ∧ c ≤ '9' then some (c.toNat - '0'.toNat)
  else if 'a' ≤ c ∧ c ≤ 'f' then some (c.toNat - 'a'.toNat + 10)
  else if 'A' ≤ c ∧ c ≤ 'F' then some (c.toNat - 'A'.toNat + 10)
  else none

def unescapeChars (plusToSpace : Bool) : List Char → Option (List Char)
  | [] => some []
  | '%' :: a :: b :: rest => do
      let ha ← hexVal a
      let hb ← hexVal b
      let tail ← unescapeChars plusToSpace rest
      some (Char.ofNat (16 * ha + hb) :: tail)
  | '%' :: _ => none
  | c :: rest => do
      let tail ← unescapeChars plusToSpace rest
      some ((if plusToSpace && c == '+' then ' ' else c) :: tail)

/-- Model of Go `url.QueryUnescape` (returns `none` exactly when Go returns a
non-nil error; in that case Go's returned string value is `""`). -/
def queryUnescape (s : String) : Option String :=
  (unescapeChars true s.toList).map fun cs => ⟨cs⟩

/-! ## Base64 (model of Go encoding/base64)

The source decodes with `base64.RawURLEncoding`, `base64.StdEncoding` and
`base64.URLEncoding`.  The two alphabets share their first 62 characters and
differ in the last two (`+/` vs `-_`); defining them as appends of a common
prefix makes that sharing available to proofs.  Decoding follows Go's
(default, non-strict) semantics: `\r`/`\n` are skipped, any other character
outside the alphabet is an error, unpadded decoding rejects a trailing
quantum of one character, padded decoding requires a multiple-of-4 length
with at most two trailing `=`. -/

def base62Alphabet : List Char :=
  "ABCDEFGHIJKLMNOPQRSTUVWXYZabcdefghijklmnopqrstuvwxyz0123456789".toList

def stdAlphabet : List Char := base62Alphabet ++ ['+', '/']

def urlAlphabet : List Char := base62Alphabet ++ ['-', '_']

def idxOf : List Char → Char → Option Nat
  | [], _ => none
  | a :: rest, c => if a == c then some 0 else (idxOf rest c).map (· + 1)

def stdIx (c : Char) : Option Nat := idxOf stdAlphabet c

def urlIx (c : Char) : Option Nat := idxOf urlAlphabet c

/-- Model of Go `base64.Encoding.EncodeToString` restricted to the encoding
groups (padding handled by `b64encode`).  Input bytes must be `< 256`. -/
def b64encodeCore (al : List Char) : List Nat → List Char
  | [] => []
  | [x] => [al.getD (x / 4) 'A', al.getD (x % 4 * 16) 'A']
  | [x, y] => [al.getD (x / 4) 'A', al.getD (x % 4 * 16 + y / 16) 'A',
      al.getD (y % 16 * 4) 'A']
  | x :: y :: z :: rest =>
      al.getD (x / 4) 'A' :: al.getD (x % 4 * 16 + y / 16) 'A' ::
      al.getD (y % 16 * 4 + z / 64) 'A' :: al.getD (z % 64) 'A' ::
      b64encodeCore al rest

/-- The `=` padding a padded encoding appends for an input of `n` bytes. -/
def b64pads (n : Nat) : List Char :=
  match n % 3 with
  | 1 => ['=', '=']
  | 2 => ['=']
  | _ => []

/-- Base64 encoding over alphabet `al`, with (`pad = true`) or without
(`pad = false`) `=` padding; models Go's `EncodeToString` for the four
encodings used by the source. -/
def b64encode (al : List Char) (pad : Bool) (bs : List Nat) : List Char :=
  b64encodeCore al bs ++ (if pad then b64pads bs.length else [])

/-- Bytes of one full 4-character base64 quantum. -/
def quantum4 (i0 i1 i2 i3 : Nat) : List Nat :=
  let n := ((i0 * 64 + i1) * 64 + i2) * 64 + i3
  [n / 65536, n / 256 % 256, n % 256]

/-- Decode a padding-free base64 character sequence (Go's per-quantum decode,
non-strict about trailing bits, as Go's default decoder is). -/
def b64decodeCore (ix : Char → Option Nat) : List Char → Option (List Nat)
  | [] => some []
  | [_] => none
  | [a, b] => do
      let i ← ix a
      let j ← ix b
      some [(i * 64 + j) / 16]
  | [a, b, c] => do
      let i ← ix a
      let j ← ix b
      let k ← ix c
      let n := (i * 64 + j) * 64 + k
      some [n / 1024, n / 4 % 256]
  | a :: b :: c :: d :: rest => do
      let i ← ix a
      let j ← ix b
      let k ← ix c
      let l ← ix d
      let tail ← b64decodeCore ix rest
      some (quantum4 i j k l ++ tail)

def notNewline (c : Char) : Bool := c != '\r' && c != '\n'

/-- Model of Go `DecodeString` for an unpadded (`Raw`) encoding:
newlines skipped, then plain quantum decoding (`=` is not in the alphabet,
so any padding character is an error, as in Go). -/
def b64decodeRaw (ix : Char → Option Nat) (cs : List Char) : Option (List Nat) :=
  b64decodeCore ix (cs.filter notNewline)

/-- Model of Go `DecodeString` for a padded encoding: newlines skipped, total
length must be a multiple of 4, at most two trailing `=` which are stripped
before quantum decoding (a stray `=` elsewhere fails inside
`b64decodeCore`). -/
def b64decodePadded (ix : Char → Option Nat) (cs : List Char) : Option (List Nat) :=
  let cs := cs.filter notNewline
  if cs.length % 4 != 0 then none
  else
    let k := (cs.reverse.takeWhile (fun c => c == '=')).length
    if k > 2 then none else b64decodeCore ix (cs.take (cs.length - k))

/-- Go `string(b)` conversion of decoded bytes. -/
def bytesToString (bs : List Nat) : String := ⟨bs.map Char.ofNat⟩

/-- The `switch len(padded) % 4` padding fix-up of `base64DecodeUserinfo`. -/
def padForLen (cs : List Char) : List Char :=
  match cs.length % 4 with
  | 2 => cs ++ ['=', '=']
  | 3 => cs ++ ['=']
  | _ => cs

/-- Embedding of `base64DecodeUserinfo` (parser.go): percent-unescape with the
error discarded (`s, _ = url.QueryUnescape(s)` — Go's `QueryUnescape` returns
`""` together with the error, so a malformed escape silently yields the empty
string), compute the padded form from `len(s) % 4`, then try
`RawURLEncoding` on the original, `StdEncoding` on the padded form, and
`URLEncoding` on the padded form, in that order. -/
def base64DecodeUserinfo (s : String) : Except String String :=
  let s := (queryUnescape s).getD ""
  let cs := s.toList
  let padded := padForLen cs
  match b64decodeRaw urlIx cs with
  | some b => .ok (bytesToString b)
  | none =>
    match b64decodePadded stdIx padded with
    | some b => .ok (bytesToString b)
    | none =>
      match b64decodePadded urlIx padded with
      | some b => .ok (bytesToString b)
      | none => .error "base64 decode failed: illegal base64 data"

/-! ## URL parsing (model of net/url.Parse)

The source hands each line to Go's `net/url.Parse` and then reads
`Hostname()`, `Port()`, `User.Username()`, `User.String()`, `Query()` and
`Fragment`.  `urlParse` below models that pipeline for the absolute-URI shape
these links use (`scheme://userinfo@host:port/path?query#fragment`, ASCII):
fragment split at the first `#` and percent-decoded, scheme up to the first
`:`, query split at the first `?`, authority after `//` up to the first `/`,
userinfo before the last `@` (validated and percent-decoded, Go's
`encodeUserPassword` mode, split `user:pass` at the first `:`), host
percent-decoded with a digits-only port after the last `:`.  IPv6 bracket
hosts are handled without zone identifiers; IDNA and the host-byte blacklist
of net/url are not modelled (no claim depends on them). -/

def isAlphaChar (c : Char) : Bool :=
  ('a' ≤ c && c ≤ 'z') || ('A' ≤ c && c ≤ 'Z')

/-- ASCII `'0' <= c && c <= '9'` (the only digit test Go's net/url and
strconv perform). -/
def isDigitChar (c : Char) : Bool := 48 ≤ c.toNat && c.toNat ≤ 57

def isSchemeTailChar (c : Char) : Bool :=
  isAlphaChar c || c.isDigit || c == '+' || c == '-' || c == '.'

/-- Model of Go `getScheme`: returns `(scheme, rest)`; a scheme-less input
comes back with scheme `[]` and the input unchanged; a leading `:` is a parse
error (`none`). -/
def getSchemeAux (raw : List Char) : List Char → List Char → Option (List Char × List Char)
  | _, [] => some ([], raw)
  | acc, ':' :: rest => if acc.isEmpty then none else some (acc.reverse, rest)
  | acc, c :: rest =>
      if acc.isEmpty then
        if isAlphaChar c then getSchemeAux raw (c :: acc) rest else some ([], raw)
      else
        if isSchemeTailChar c then getSchemeAux raw (c :: acc) rest else some ([], raw)

def getScheme (raw : List Char) : Option (List Char × List Char) :=
  getSchemeAux raw [] raw

/-- Split at the first occurrence of `sep`: `(before, after)`, with
`after = []` and the whole input in `before` when `sep` is absent (models
`strings.Cut`). -/
def cutFirst (sep : Char) : List Char → List Char × List Char
  | [] => ([], [])
  | c :: rest =>
      if c == sep then ([], rest)
      else
        let pr := cutFirst sep rest
        (c :: pr.1, pr.2)

def containsChar (sep : Char) : List Char → Bool
  | [] => false
  | c :: rest => c == sep || containsChar sep rest

/-- Split at the last occurrence of `sep` (`strings.LastIndex`); `none` when
`sep` does not occur. -/
def cutLast (sep : Char) (cs : List Char) : Option (List Char × List Char) :=
  if containsChar sep cs then
    some (match cs with
      | [] => ([], [])
      | c :: rest =>
        match cutLast sep rest with
        | some pr => (c :: pr.1, pr.2)
        | none => ([], rest))
  else none

/-- Characters Go's `validUserinfo` accepts (alphanumerics and
`-._:~!$&'()*+,;=%@`). -/
def validUserinfoChar (c : Char) : Bool :=
  isAlphaChar c || c.isDigit ||
  ['-', '.', '_', ':', '~', '!', '$', '&', Char.ofNat 39, '(', ')', '*', '+',
    ',', ';', '=', '%', '@'].contains c

structure GoURL where
  scheme : String
  hasUser : Bool
  username : String
  hasPass : Bool
  password : String
  host : String
  portStr : String
  rawQuery : String
  fragment : String
deriving DecidableEq, Repr

/-- Model of Go `parseHost` + `Port()`: returns `(hostname, portStr)`. -/
def parseHost (h : List Char) : Option (List Char × List Char) :=
  match h with
  | '[' :: rest =>
      let inside := rest.takeWhile (fun c => c != ']')
      let after := rest.dropWhile (fun c => c != ']')
      match after with
      | [] => none
      | _ :: tail =>
        match tail with
        | [] => do
            let hn ← unescapeChars false inside
            some (hn, [])
        | ':' :: p => if p.all isDigitChar then do
              let hn ← unescapeChars false inside
              some (hn, p)
            else none
        | _ => none
  | _ =>
      match cutLast ':' h with
      | none => do
          let hn ← unescapeChars false h
          some (hn, [])
      | some (hn, p) =>
          if p.all isDigitChar then do
            let hn ← unescapeChars false hn
            some (hn, p)
          else none

/-- Model of Go `net/url.Parse` for the URI shapes used by this parser
(`none` exactly where Go returns an error). -/
def urlParse (raw : String) : Option GoURL := do
  let cs := raw.toList
  let (beforeFrag, frag) := cutFirst '#' cs
  let fragment ← unescapeChars false frag
  let (scheme, rest) ← getScheme beforeFrag
  let (rest, rawQuery) := cutFirst '?' rest
  match rest with
  | '/' :: '/' :: afterSlashes =>
      let authority := afterSlashes.takeWhile (fun c => c != '/')
      match cutLast '@' authority with
      | none => do
          let (hn, p) ← parseHost authority
          some { scheme := ⟨scheme.map Char.toLower⟩, hasUser := false,
                 username := "", hasPass := false, password := "",
                 host := ⟨hn⟩, portStr := ⟨p⟩, rawQuery := ⟨rawQuery⟩,
                 fragment := ⟨fragment⟩ }
      | some (userinfo, hostPart) => do
          if !userinfo.all validUserinfoChar then none
          else
            let (hn, p) ← parseHost hostPart
            if containsChar ':' userinfo then do
              let (user, pass) := cutFirst ':' userinfo
              let u ← unescapeChars false user
              let pw ← unescapeChars false pass
              some { scheme := ⟨scheme.map Char.toLower⟩, hasUser := true,
                     username := ⟨u⟩, hasPass := true, password := ⟨pw⟩,
                     host := ⟨hn⟩, portStr := ⟨p⟩, rawQuery := ⟨rawQuery⟩,
                     fragment := ⟨fragment⟩ }
            else do
              let u ← unescapeChars false userinfo
              some { scheme := ⟨scheme.map Char.toLower⟩, hasUser := true,
                     username := ⟨u⟩, hasPass := false, password := "",
                     host := ⟨hn⟩, portStr := ⟨p⟩, rawQuery := ⟨rawQuery⟩,
                     fragment := ⟨fragment⟩ }
  | _ =>
      -- opaque / path-only URI: no authority, so Hostname() and Port() are empty
      some { scheme := ⟨scheme.map Char.toLower⟩, hasUser := false,
             username := "", hasPass := false, password := "",
             host := "", portStr := "", rawQuery := ⟨rawQuery⟩,
             fragment := ⟨fragment⟩ }

/-- Characters Go's `shouldEscape(c, encodeUserPassword)` keeps unescaped. -/
def keepInUserinfo (c : Char) : Bool :=
  isAlphaChar c || c.isDigit ||
  ['-', '_', '.', '~', '$', '&', '+', ',', ';', '='].contains c

def hexUpper (n : Nat) : Char :=
  "0123456789ABCDEF".toList.getD n '0'

/-- Model of Go `url.escape(s, encodeUserPassword)`. -/
def escapeUserPassword (s : String) : String :=
  ⟨s.toList.flatMap fun c =>
    if keepInUserinfo c then [c]
    else ['%', hexUpper (c.toNat / 16), hexUpper (c.toNat % 16)]⟩

/-- Model of Go `u.User.String()` as used by `parseSS` (nil receiver gives
`""`; otherwise username and password are re-escaped and joined). -/
def userinfoString (u : GoURL) : String :=
  if !u.hasUser then ""
  else
    escapeUserPassword u.username ++
      (if u.hasPass then ":" ++ escapeUserPassword u.password else "")

/-! ## Query parsing (model of net/url.ParseQuery / Values.Get) -/

def splitAmpAux : List Char → List Char → List (List Char)
  | acc, [] => [acc.reverse]
  | acc, '&' :: rest => acc.reverse :: splitAmpAux [] rest
  | acc, c :: rest => splitAmpAux (c :: acc) rest

/-- Segments of the query between `&`s (the `strings.Cut` loop of
`ParseQuery`); Go produces no trailing empty segment for a trailing `&`,
but empty segments are skipped downstream either way. -/
def splitAmp : List Char → List (List Char)
  | [] => []
  | cs => splitAmpAux [] cs

/-- Model of `url.ParseQuery` as consumed through `u.Query()` (which drops
the error): segments with `;` or an empty key, and segments whose key or
value fail to unescape, are skipped. -/
def parseQueryPairs (cs : List Char) : List (String × String) :=
  (splitAmp cs).filterMap fun seg =>
    if containsChar ';' seg then none
    else if seg.isEmpty then none
    else
      let (k, v) := cutFirst '=' seg
      match unescapeChars true k, unescapeChars true v with
      | some k, some v => some (⟨k⟩, ⟨v⟩)
      | _, _ => none

/-- Model of `url.Values.Get` (first value, `""` when the key is absent). -/
def queryGet (pairs : List (String × String)) (key : String) : String :=
  match pairs.find? (fun p => p.1 == key) with
  | some p => p.2
  | none => ""

/-! ## strconv.Atoi -/

/-- The optional leading sign of a Go `strconv.Atoi` input. -/
def atoiSignSplit : List Char → Bool × List Char
  | '-' :: rest => (true, rest)
  | '+' :: rest => (false, rest)
  | cs => (false, cs)

/-- Model of Go `strconv.Atoi`: optional sign, non-empty digit string,
64-bit range check (outside the range Go reports `ErrRange`). -/
def atoi (s : String) : Except String Int :=
  let cs := s.toList
  let (neg, ds) := atoiSignSplit cs
  if ds.isEmpty || !ds.all isDigitChar then
    .error ("parsing " ++ s ++ ": invalid syntax")
  else
    let n : Nat := ds.foldl (fun a c => a * 10 + (c.toNat - 48)) 0
    let v : Int := if neg then -(n : Int) else (n : Int)
    if v < -(2 ^ 63) || 2 ^ 63 - 1 < v then
      .error ("parsing " ++ s ++ ": value out of range")
    else .ok v

/-! ## Parsed configuration types (parser.go) -/

structure VlessConfig where
  Name : String
  UUID : String
  Server : String
  Port : Int
  Security : String
  Typ : String      -- Go field `Type` (renamed: `Type` is a Lean keyword)
  SNI : String
  Host : String
  Path : String
  Fp : String
  Encryption : String
  Flow : String
  PublicKey : String
  ShortID : String
deriving DecidableEq, Repr

structure SSConfig where
  Name : String
  Method : String
  Password : String
  Server : String
  Port : Int
deriving DecidableEq, Repr

structure VmessConfig where
  Name : String
  UUID : String
  Server : String
  Port : Int
  Aid : Int
  Security : String
  Network : String
  TLS : String
  SNI : String
  Host : String
  Path : String
deriving DecidableEq, Repr

structure TrojanConfig where
  Name : String
  Password : String
  Server : String
  Port : Int
  Security : String
  Typ : String      -- Go field `Type`
  SNI : String
  Host : String
  Path : String
  Fp : String
deriving DecidableEq, Repr

/-- Display-name resolution shared by parseVless/parseSS/parseTrojan:
the fragment, query-unescaped when that succeeds, with fallback
`fmt.Sprintf("%s:%d", host, port)` when the fragment is empty. -/
def resolveName (fragment host : String) (port : Int) : String :=
  if fragment == "" then host ++ ":" ++ toString port
  else
    match queryUnescape fragment with
    | some dec => dec
    | none => fragment

/-- Embedding of `parseVless` (parser.go). -/
def parseVless (raw : String) : Except String VlessConfig :=
  match urlParse raw with
  | none => .error "vless parse error: net/url parse error"
  | some u =>
    let portStr := if u.portStr == "" then "443" else u.portStr
    match atoi portStr with
    | .error e => .error ("invalid port: " ++ e)
    | .ok port =>
      let q := parseQueryPairs u.rawQuery.toList
      .ok { Name := resolveName u.fragment u.host port
            UUID := u.username
            Server := u.host
            Port := port
            Security := queryGet q "security"
            Typ := queryGet q "type"
            SNI := queryGet q "sni"
            Host := queryGet q "host"
            Path := queryGet q "path"
            Fp := queryGet q "fp"
            Encryption := queryGet q "encryption"
            Flow := queryGet q "flow"
            PublicKey := queryGet q "pbk"
            ShortID := queryGet q "sid" }

/-- Model of `strings.SplitN(s, ":", 2)` followed by the `len(parts) != 2`
check of `parseSS`: `none` when `s` has no colon (Go gets a single part),
otherwise the text before the first colon and everything after it. -/
def splitColonChars : List Char → Option (List Char × List Char)
  | [] => none
  | c :: rest =>
      if c == ':' then some ([], rest)
      else (splitColonChars rest).map fun pr => (c :: pr.1, pr.2)

def splitN2Colon (s : String) : Option (String × String) :=
  (splitColonChars s.toList).map fun pr => (⟨pr.1⟩, ⟨pr.2⟩)

/-- Embedding of `parseSS` (parser.go). -/
def parseSS (raw : String) : Except String SSConfig :=
  match urlParse raw with
  | none => .error "ss parse error: net/url parse error"
  | some u =>
    let portStr := if u.portStr == "" then "8388" else u.portStr
    match atoi portStr with
    | .error e => .error ("invalid port: " ++ e)
    | .ok port =>
      match base64DecodeUserinfo (userinfoString u) with
      | .error e => .error ("ss userinfo decode error: " ++ e)
      | .ok decoded =>
        match splitN2Colon decoded with
        | none => .error ("ss userinfo format invalid: " ++ decoded)
        | some (m, p) =>
          .ok { Name := resolveName u.fragment u.host port
                Method := m
                Password := p
                Server := u.host
                Port := port }

/-- Embedding of `parseTrojan` (parser.go). -/
def parseTrojan (raw : String) : Except String TrojanConfig :=
  match urlParse raw with
  | none => .error "trojan parse error: net/url parse error"
  | some u =>
    let portStr := if u.portStr == "" then "443" else u.portStr
    match atoi portStr with
    | .error e => .error ("invalid port: " ++ e)
    | .ok port =>
      let q := parseQueryPairs u.rawQuery.toList
      let security0 := queryGet q "security"
      let security := if security0 == "" then "tls" else security0
      .ok { Name := resolveName u.fragment u.host port
            Password := u.username
            Server := u.host
            Port := port
            Security := security
            Typ := queryGet q "type"
            SNI := queryGet q "sni"
            Host := queryGet q "host"
            Path := queryGet q "path"
            Fp := queryGet q "fp" }

/-! ## vmess JSON payload (parser.go)

Go unmarshals the decoded payload into `vmessJSON`, whose `port` and `aid`
fields are `interface{}`.  `Jval` models the JSON values Go's `encoding/json`
can place in an `interface{}` field: numbers arrive as `float64` (Go's
`toInt` truncates with `int(x)`; `Jval.num` carries the truncated integer),
strings, `null`, booleans, arrays and objects (payloads of the latter two
are irrelevant to `toInt`, which only switches on the dynamic type). -/

inductive Jval where
  | num (n : Int)
  | str (s : String)
  | null
  | bool (b : Bool)
  | arr
  | obj
deriving DecidableEq, Repr

def Jval.typeName : Jval → String
  | .num _ => "float64"
  | .str _ => "string"
  | .null => "<nil>"
  | .bool _ => "bool"
  | .arr => "[]interface {}"
  | .obj => "map[string]interface {}"

/-- Embedding of `toInt` (parser.go): on every error path Go also returns
the value 0. -/
def toInt : Jval → Except String Int
  | .num n => .ok n
  | .str s => if s == "" then .ok 0 else atoi s
  | .null => .ok 0
  | v => .error ("unexpected type " ++ v.typeName)

/-- The fields of Go's `vmessJSON` after `json.Unmarshal` succeeded. -/
structure VmessJSON where
  Add : String
  Aid : Jval
  ID : String
  Net : String
  Path : String
  Port : Jval
  PS : String
  Scy : String
  SNI : String
  TLS : String
  Typ : String      -- Go field `Type`
  Host : String
deriving DecidableEq, Repr

/-- Embedding of the tail of `parseVmess` (parser.go, after `json.Unmarshal`
succeeded): port coercion is fatal, aid coercion discards its error
(`aid, _ := toInt(v.Aid)`, and Go's `toInt` returns 0 alongside every
error), then name and cipher defaults. -/
def parseVmessCore (v : VmessJSON) : Except String VmessConfig :=
  match toInt v.Port with
  | .error e => .error ("vmess port: " ++ e)
  | .ok port =>
    let aid := match toInt v.Aid with
      | .ok a => a
      | .error _ => 0
    let name := if v.PS == "" then v.Add ++ ":" ++ toString port else v.PS
    let sec := if v.Scy == "" then "auto" else v.Scy
    .ok { Name := name
          UUID := v.ID
          Server := v.Add
          Port := port
          Aid := aid
          Security := sec
          Network := v.Net
          TLS := v.TLS
          SNI := v.SNI
          Host := v.Host
          Path := v.Path }

/-! ## The checker package

`CheckConfig` performs I/O at fixed points: free-port allocation, engine
config generation, engine start, the readiness dials of `waitForPort`, the
SOCKS5 dialer construction, the HTTP GET (whose measured latency Go computes
with `time.Since`), the body read, and `json.Unmarshal` of the body.  A
`CheckEnv` records the outcome of each of those effects, and the embedded
`CheckConfig` is the source's control flow as a pure function of the
environment.  Latencies and timeouts are in milliseconds. -/

/-- Interface `ProxyConfig` with its four fixed implementations. -/
inductive ProxyConfig where
  | vless (c : VlessConfig)
  | ss (c : SSConfig)
  | vmess (c : VmessConfig)
  | trojan (c : TrojanConfig)
deriving DecidableEq, Repr

def ProxyConfig.GetName : ProxyConfig → String
  | .vless c => c.Name
  | .ss c => c.Name
  | .vmess c => c.Name
  | .trojan c => c.Name

def ProxyConfig.GetProtocol : ProxyConfig → String
  | .vless _ => "vless"
  | .ss _ => "shadowsocks"
  | .vmess _ => "vmess"
  | .trojan _ => "trojan"

def ProxyConfig.GetServer : ProxyConfig → String
  | .vless c => c.Server
  | .ss c => c.Server
  | .vmess c => c.Server
  | .trojan c => c.Server

def ProxyConfig.GetPort : ProxyConfig → Int
  | .vless c => c.Port
  | .ss c => c.Port
  | .vmess c => c.Port
  | .trojan c => c.Port

instance : Inhabited ProxyConfig :=
  ⟨.ss { Name := "", Method := "", Password := "", Server := "", Port := 0 }⟩

/-- The checker's `Result` struct. -/
structure Result where
  Index : Nat
  Name : String
  Protocol : String
  Server : String
  Port : Int
  Alive : Bool
  Latency : Nat
  ExitIP : String
  Country : String
  Error : String
deriving DecidableEq, Repr

/-- The zero value of `Result`, as produced by `make([]Result, total)`. -/
def Result.zero : Result :=
  { Index := 0, Name := "", Protocol := "", Server := "", Port := 0,
    Alive := false, Latency := 0, ExitIP := "", Country := "", Error := "" }

instance : Inhabited Result := ⟨Result.zero⟩

/-- The `ipAPIResponse` struct of the checker package. -/
structure IpAPIResponse where
  Query : String
  CountryName : String
  Status : String
  Message : String
deriving DecidableEq, Repr

/-- Outcomes of the I/O effects of one `CheckConfig` run.  `dialOk k` is
whether the `k`-th readiness dial of `waitForPort` connects; `dialMs k` is
how many milliseconds a failed `k`-th dial took (`net.DialTimeout` bounds it
by 200).  `httpGet` is the error or the measured latency of `client.Get`;
`readBody` the outcome of `io.ReadAll`; `unmarshal` the outcome of
`json.Unmarshal` on the body that was read. -/
structure CheckEnv where
  freePort : Except String Int
  genConfig : Except String String
  startXray : Except String Unit
  dialOk : Nat → Bool
  dialMs : Nat → Nat
  socks5 : Except String Unit
  httpGet : Except String Nat
  readBody : Except String String
  unmarshal : String → Except String IpAPIResponse

/-- Embedding of the loop of `waitForPort`: while `now` is before the
deadline, dial (200 ms cap recorded in `dialMs`); on success return, on
failure sleep 100 ms and retry.  Time is explicit; each failed round
advances it by the dial's duration plus the 100 ms sleep. -/
def waitForPortLoop (env : CheckEnv) (addr : String) (deadline now k : Nat) :
    Except String Unit :=
  if now < deadline then
    if env.dialOk k then .ok ()
    else waitForPortLoop env addr deadline (now + env.dialMs k + 100) (k + 1)
  else .error ("timeout waiting for " ++ addr)
termination_by deadline - now
decreasing_by omega

/-- Embedding of `waitForPort` (checker package): address
`fmt.Sprintf("%s:%d", host, port)`, deadline `timeout` from now. -/
def waitForPort (env : CheckEnv) (host : String) (port : Int)
    (timeoutMs : Nat) : Except String Unit :=
  waitForPortLoop env (host ++ ":" ++ toString port) timeoutMs 0 0

/-- Embedding of `CheckConfig` (checker package).  `timeoutMs` is the
caller-supplied per-check HTTP timeout; it only parameterizes the HTTP
client, whose outcome the environment records, so it is not consumed
further here.  `defer xrayrunner.Stop(cmd)` has no effect on the returned
`Result` and is not modelled. -/
def CheckConfig (idx : Nat) (cfg : ProxyConfig) (_timeoutMs : Nat)
    (env : CheckEnv) : Result :=
  let result := { Result.zero with
    Index := idx, Name := cfg.GetName, Protocol := cfg.GetProtocol,
    Server := cfg.GetServer, Port := cfg.GetPort }
  match env.freePort with
  | .error e => { result with Error := "no free port: " ++ e }
  | .ok socksPort =>
  match env.genConfig with
  | .error e => { result with Error := "config gen: " ++ e }
  | .ok _ =>
  match env.startXray with
  | .error e => { result with Error := "xray start: " ++ e }
  | .ok _ =>
  match waitForPort env "127.0.0.1" socksPort 3000 with
  | .error e => { result with Error := "xray not ready: " ++ e }
  | .ok _ =>
  match env.socks5 with
  | .error e => { result with Error := "socks5 dialer: " ++ e }
  | .ok _ =>
  match env.httpGet with
  | .error e => { result with Error := "http get: " ++ e }
  | .ok latency =>
  let result := { result with Latency := latency }
  match env.readBody with
  | .error e => { result with Error := "read body: " ++ e }
  | .ok body =>
  match env.unmarshal body with
  | .error e => { result with Error := "json parse: " ++ e }
  | .ok apiResp =>
  if apiResp.Status != "success" then
    { result with Error := "ip-api: " ++ apiResp.Message }
  else
    { result with
      Alive := true
      ExitIP := apiResp.Query
      Country := apiResp.CountryName }

/-! ## CheckAll

`CheckAll` spawns `workers` goroutines (the loop `for i := 0; i < workers;
i++` spawns none when `workers <= 0`), sends every index `0..total-1` into a
buffered channel, closes it, and waits.  Each consumed index `idx` produces
`CheckConfig(idx+1, configs[idx], timeout)` which is stored at slot `idx`
under the mutex.  A run is abstracted by its *schedule*: the global order in
which job indices complete.  With at least one worker every sent index is
consumed exactly once, in an arbitrary order, so the schedules are exactly
the permutations of `0..total-1`; with `workers <= 0` nothing consumes the
channel and `wg.Wait()` returns at once, so the only schedule is the empty
one.  Writes to distinct slots commute, so the per-schedule fold below
covers every interleaving.  `envs idx` is the I/O environment of the check
of configuration `idx`. -/

def ValidSchedule (workers : Int) (total : Nat) (order : List Nat) : Prop :=
  if 1 ≤ workers then order.Perm (List.range total) else order = []

/-- The result array of a `CheckAll` run whose completion order is
`order`. -/
def CheckAllModel (configs : List ProxyConfig) (timeoutMs : Nat)
    (envs : Nat → CheckEnv) (order : List Nat) : List Result :=
  order.foldl
    (fun results idx =>
      results.set idx (CheckConfig (idx + 1) (configs.getD idx default) timeoutMs (envs idx)))
    (List.replicate configs.length Result.zero)

/-! ## Helper lemmas -/

theorem append_ne_empty_of_ne (p e : String) (h : p.length ≠ 0) : p ++ e ≠ "" := by
  intro hc
  have h2 := congrArg String.length hc
  simp [String.length_append] at h2
  omega

/-! ## Claim C2: CheckConfig's alive/error dichotomy -/

/-- C2: every `Result` returned by `CheckConfig` satisfies exactly one of the
two states: alive with an empty error message, or dead with a non-empty
error message.  (The two disjuncts contradict each other on `Alive`, so the
disjunction already expresses "exactly one".) -/
theorem checkConfig_alive_error_dichotomy (idx : Nat) (cfg : ProxyConfig)
    (t : Nat) (env : CheckEnv) :
    ((CheckConfig idx cfg t env).Alive = true ∧ (CheckConfig idx cfg t env).Error = "")
    ∨ ((CheckConfig idx cfg t env).Alive = false ∧ (CheckConfig idx cfg t env).Error ≠ "") := by
  unfold CheckConfig
  repeat' split
  all_goals
    first
      | exact Or.inl ⟨rfl, rfl⟩
      | exact Or.inr ⟨rfl, append_ne_empty_of_ne _ _ (by decide)⟩

/-! ## Claim C9: malformed percent-escapes never reach the base64 decoders -/

/-- C9: when percent-decoding of the input fails, `base64DecodeUserinfo`
silently replaces the input by `""` (Go's `QueryUnescape` returns `""`
together with its error, and the error is discarded) and succeeds with the
empty plaintext; in particular no `Base64DecodeFailed` error is possible on
such inputs. -/
theorem base64DecodeUserinfo_malformed_escape (s : String)
    (h : queryUnescape s = none) :
    base64DecodeUserinfo s = .ok "" := by
  unfold base64DecodeUserinfo
  rw [h]
  rfl

/-- Witness for C9 at the concrete malformed escape `"%zz"`. -/
theorem base64DecodeUserinfo_malformed_escape_witness :
    base64DecodeUserinfo "%zz" = .ok "" :=
  base64DecodeUserinfo_malformed_escape "%zz" (by decide)

/-! ## Claim C8: engine never ready -/

theorem waitForPortLoop_timeout_aux (env : CheckEnv) (addr : String)
    (h : ∀ k, env.dialOk k = false) :
    ∀ (d deadline now k : Nat), deadline - now ≤ d →
      waitForPortLoop env addr deadline now k =
        .error ("timeout waiting for " ++ addr) := by
  intro d
  induction d with
  | zero =>
    intro deadline now k hle
    rw [waitForPortLoop]
    rw [if_neg (by omega)]
  | succ d ih =>
    intro deadline now k hle
    rw [waitForPortLoop]
    split
    · rw [h k]
      simp only [Bool.false_eq_true, if_false]
      exact ih _ _ _ (by omega)
    · rfl

theorem waitForPortLoop_timeout (env : CheckEnv) (addr : String)
    (h : ∀ k, env.dialOk k = false) (deadline now k : Nat) :
    waitForPortLoop env addr deadline now k =
      .error ("timeout waiting for " ++ addr) :=
  waitForPortLoop_timeout_aux env addr h (deadline - now) deadline now k le_rfl

/-- C8: when the engine process never accepts a connection (every readiness
dial fails, each dial bounded by 200 ms as `net.DialTimeout` guarantees),
`CheckConfig` returns a dead `Result` whose error carries the
`xray not ready` tag with the 3-second timeout message, whose `Latency` is
still the zero value, and the HTTP stage is never consulted: the result is
unchanged under arbitrary replacement of the SOCKS5/HTTP/body/JSON outcomes
of the environment. -/
theorem checkConfig_engine_not_ready (idx : Nat) (cfg : ProxyConfig)
    (t : Nat) (env : CheckEnv) (p : Int) (cfgJSON : String)
    (hp : env.freePort = .ok p) (hg : env.genConfig = .ok cfgJSON)
    (hs : env.startXray = .ok ()) (hd : ∀ k, env.dialOk k = false)
    (_hcap : ∀ k, env.dialMs k ≤ 200) :
    (CheckConfig idx cfg t env).Alive = false ∧
    (CheckConfig idx cfg t env).Latency = 0 ∧
    (CheckConfig idx cfg t env).Error =
      "xray not ready: " ++ ("timeout waiting for " ++ ("127.0.0.1" ++ ":" ++ toString p)) ∧
    (∀ s5 g rb um, CheckConfig idx cfg t
        { env with socks5 := s5, httpGet := g, readBody := rb, unmarshal := um } =
      CheckConfig idx cfg t env) := by
  have hw : ∀ env2 : CheckEnv, env2.dialOk = env.dialOk →
      waitForPort env2 "127.0.0.1" p 3000 =
        .error ("timeout waiting for " ++ ("127.0.0.1" ++ ":" ++ toString p)) := by
    intro env2 he
    unfold waitForPort
    exact waitForPortLoop_timeout env2 _ (fun k => he ▸ hd k) _ _ _
  refine ⟨?_, ?_, ?_, ?_⟩
  · simp only [CheckConfig, hp, hg, hs, hw env rfl]
    rfl
  · simp only [CheckConfig, hp, hg, hs, hw env rfl]
    rfl
  · simp only [CheckConfig, hp, hg, hs, hw env rfl]
  · intro s5 g rb um
    simp only [CheckConfig, hp, hg, hs, hw]

/-- Witness for C8: a concrete environment whose engine port never opens. -/
def envNeverReady : CheckEnv :=
  { freePort := .ok 1080
    genConfig := .ok "{}"
    startXray := .ok ()
    dialOk := fun _ => false
    dialMs := fun _ => 0
    socks5 := .ok ()
    httpGet := .ok 42
    readBody := .ok ""
    unmarshal := fun _ => .ok { Query := "", CountryName := "", Status := "success", Message := "" } }

theorem checkConfig_engine_not_ready_witness :
    (CheckConfig 1 default 10000 envNeverReady).Alive = false ∧
    (CheckConfig 1 default 10000 envNeverReady).Latency = 0 ∧
    (CheckConfig 1 default 10000 envNeverReady).Error =
      "xray not ready: " ++ ("timeout waiting for " ++ ("127.0.0.1" ++ ":" ++ toString (1080 : Int))) ∧
    (∀ s5 g rb um, CheckConfig 1 default 10000
        { envNeverReady with socks5 := s5, httpGet := g, readBody := rb, unmarshal := um } =
      CheckConfig 1 default 10000 envNeverReady) :=
  checkConfig_engine_not_ready 1 default 10000 envNeverReady 1080 "{}"
    rfl rfl rfl (fun _ => rfl) (fun _ => Nat.zero_le 200)

/-! ## Claim C10: late probe failures keep the measured latency -/

/-- C10: when the HTTP GET itself succeeds (latency `L` measured) but a
later step fails — reading the body, unmarshalling the JSON, or a provider
status other than `"success"` — the `Result` is dead with a non-empty error
and its `Latency` field still holds `L`. -/
theorem checkConfig_latency_on_late_failure (idx : Nat) (cfg : ProxyConfig)
    (t : Nat) (env : CheckEnv) (p : Int) (cfgJSON : String) (L : Nat)
    (hp : env.freePort = .ok p) (hg : env.genConfig = .ok cfgJSON)
    (hs : env.startXray = .ok ())
    (hw : waitForPort env "127.0.0.1" p 3000 = .ok ())
    (h5 : env.socks5 = .ok ()) (hh : env.httpGet = .ok L)
    (hfail :
      (∃ e, env.readBody = .error e) ∨
      (∃ body e, env.readBody = .ok body ∧ env.unmarshal body = .error e) ∨
      (∃ body resp, env.readBody = .ok body ∧ env.unmarshal body = .ok resp ∧
        resp.Status ≠ "success")) :
    (CheckConfig idx cfg t env).Alive = false ∧
    (CheckConfig idx cfg t env).Error ≠ "" ∧
    (CheckConfig idx cfg t env).Latency = L := by
  simp only [CheckConfig, hp, hg, hs, hw, h5, hh]
  rcases hfail with ⟨e, he⟩ | ⟨body, e, hb, hu⟩ | ⟨body, resp, hb, hu, hst⟩
  · simp only [he, ne_eq]
    and_intros <;> first | rfl | trivial | exact append_ne_empty_of_ne _ _ (by decide)
  · simp only [hb, hu, ne_eq]
    and_intros <;> first | rfl | trivial | exact append_ne_empty_of_ne _ _ (by decide)
  · simp only [hb, hu, ne_eq]
    have hne : (resp.Status != "success") = true := by
      simpa [bne_iff_ne] using hst
    rw [if_pos hne]
    and_intros <;> first | rfl | trivial | exact append_ne_empty_of_ne _ _ (by decide)

/-- A port that accepts on the very first readiness dial. -/
theorem waitForPort_first_dial (env : CheckEnv) (host : String) (port : Int)
    (t : Nat) (ht : 0 < t) (h0 : env.dialOk 0 = true) :
    waitForPort env host port t = .ok () := by
  rw [waitForPort, waitForPortLoop, if_pos ht, h0]
  rfl

/-- Witness for C10: a concrete run whose provider status is `"fail"`. -/
def envLateFailure : CheckEnv :=
  { envNeverReady with
    dialOk := fun _ => true
    httpGet := .ok 42
    readBody := .ok "{bad}"
    unmarshal := fun _ => .ok { Query := "", CountryName := "", Status := "fail", Message := "nope" } }

theorem checkConfig_latency_on_late_failure_witness :
    (CheckConfig 1 default 10000 envLateFailure).Alive = false ∧
    (CheckConfig 1 default 10000 envLateFailure).Error ≠ "" ∧
    (CheckConfig 1 default 10000 envLateFailure).Latency = 42 :=
  checkConfig_latency_on_late_failure 1 default 10000 envLateFailure 1080 "{}" 42
    rfl rfl rfl
    (waitForPort_first_dial envLateFailure "127.0.0.1" 1080 3000 (by omega) rfl)
    rfl rfl
    (Or.inr (Or.inr ⟨"{bad}", _, rfl, rfl, by decide⟩))

/-! ## Claims C1 and C6: the CheckAll worker pool -/

theorem getD_set {α : Type} (l : List α) (i j : Nat) (v d : α) :
    (l.set i v).getD j d = if i = j ∧ i < l.length then v else l.getD j d := by
  simp only [List.getD_eq_getElem?_getD, List.getElem?_set]
  by_cases hij : i = j
  · subst hij
    by_cases hlen : i < l.length
    · simp [hlen]
    · simp [hlen, List.getElem?_eq_none (le_of_not_lt hlen)]
  · simp [hij]

theorem foldl_set_length {α : Type} (f : Nat → α) (order : List Nat)
    (init : List α) :
    (order.foldl (fun rs idx => rs.set idx (f idx)) init).length = init.length := by
  induction order generalizing init with
  | nil => rfl
  | cons a rest ih => simp [List.foldl_cons, ih, List.length_set]

/-- Since each slot `idx` is only ever written with the same value `f idx`,
the fold's outcome at an in-bounds index depends only on whether the index
occurs in the write order — not on where. -/
theorem foldl_set_getD {α : Type} (f : Nat → α) (order : List Nat)
    (init : List α) (i : Nat) (d : α) (hi : i < init.length) :
    (order.foldl (fun rs idx => rs.set idx (f idx)) init).getD i d =
      if i ∈ order then f i else init.getD i d := by
  induction order generalizing init with
  | nil => simp
  | cons a rest ih =>
    rw [List.foldl_cons, ih _ (by simpa [List.length_set] using hi)]
    by_cases hmem : i ∈ rest
    · simp [hmem, List.mem_cons]
    · rw [if_neg hmem, getD_set]
      by_cases hia : a = i
      · subst hia
        simp [hi, List.mem_cons]
      · have : ¬(i ∈ a :: rest) := by
          simp [List.mem_cons, hmem]
          exact fun hc => absurd hc.symm hia
        simp [hia, this, hi]

/-- Every `Result` of `CheckConfig` carries the ordinal it was called
with. -/
theorem checkConfig_Index (idx : Nat) (cfg : ProxyConfig) (t : Nat)
    (env : CheckEnv) : (CheckConfig idx cfg t env).Index = idx := by
  unfold CheckConfig
  repeat' split
  all_goals rfl

/-- Core behavior of `CheckAllModel` for a schedule that covers every
index. -/
theorem checkAllModel_spec (configs : List ProxyConfig) (timeoutMs : Nat)
    (envs : Nat → CheckEnv) (order : List Nat)
    (hmem : ∀ i, i < configs.length → i ∈ order) :
    (CheckAllModel configs timeoutMs envs order).length = configs.length ∧
    ∀ i, i < configs.length →
      (CheckAllModel configs timeoutMs envs order).getD i Result.zero =
        CheckConfig (i + 1) (configs.getD i default) timeoutMs (envs i) := by
  constructor
  · rw [CheckAllModel, foldl_set_length, List.length_replicate]
  · intro i hi
    rw [CheckAllModel, foldl_set_getD _ _ _ _ _ (by simpa [List.length_replicate] using hi),
      if_pos (hmem i hi)]

/-- C1: for every configuration list, any worker count ≥ 1 and any
completion order the workers may produce, `CheckAll` returns exactly
`len(configs)` Results, and slot `i` holds precisely the `Result` that
`CheckConfig` produced for `configs[i]`, with `Index = i+1`. -/
theorem checkAll_preserves_order (configs : List ProxyConfig)
    (timeoutMs : Nat) (envs : Nat → CheckEnv) (workers : Int)
    (order : List Nat) (hw : 1 ≤ workers)
    (hs : ValidSchedule workers configs.length order) :
    (CheckAllModel configs timeoutMs envs order).length = configs.length ∧
    ∀ i, i < configs.length →
      (CheckAllModel configs timeoutMs envs order).getD i Result.zero =
        CheckConfig (i + 1) (configs.getD i default) timeoutMs (envs i) ∧
      ((CheckAllModel configs timeoutMs envs order).getD i Result.zero).Index = i + 1 := by
  have hperm : order.Perm (List.range configs.length) := by
    unfold ValidSchedule at hs
    rwa [if_pos hw] at hs
  have hmem : ∀ i, i < configs.length → i ∈ order := fun i hi =>
    hperm.mem_iff.mpr (List.mem_range.mpr hi)
  obtain ⟨hlen, hval⟩ := checkAllModel_spec configs timeoutMs envs order hmem
  refine ⟨hlen, fun i hi => ⟨hval i hi, ?_⟩⟩
  rw [hval i hi, checkConfig_Index]

/-- Witness configuration and environment for the CheckAll claims (the
free-port step fails, so the checker returns immediately with a
computable Result). -/
def envPortless : CheckEnv :=
  { envNeverReady with freePort := .error "ran out" }

theorem checkAll_preserves_order_witness :
    (CheckAllModel [default] 10000 (fun _ => envPortless) [0]).length = 1 ∧
    ∀ i, i < ([default] : List ProxyConfig).length →
      (CheckAllModel [default] 10000 (fun _ => envPortless) [0]).getD i Result.zero =
        CheckConfig (i + 1) (([default] : List ProxyConfig).getD i default) 10000 envPortless ∧
      ((CheckAllModel [default] 10000 (fun _ => envPortless) [0]).getD i Result.zero).Index = i + 1 :=
  checkAll_preserves_order [default] 10000 (fun _ => envPortless) 1 [0]
    (by decide)
    (by
      unfold ValidSchedule
      rw [if_pos (by norm_num)]
      decide)

/-- C6 counterexample: with `workers = 0` (and a one-element configuration
list) nothing consumes the job queue — the only valid schedule is empty —
and `CheckAll` returns the zero-valued `Result` slice untouched: the
returned slot is not the Liveness Checker's `Result` (its `Index` is 0, not
1), so the claim's "any workerCount still runs the Liveness Checker on
every configuration" fails. -/
theorem checkAll_zero_workers_counterexample :
    ValidSchedule 0 ([(default : ProxyConfig)].length) [] ∧
    CheckAllModel [default] 10000 (fun _ => envPortless) [] = [Result.zero] ∧
    (CheckConfig 1 default 10000 envPortless).Index = 1 ∧
    Result.zero.Index = 0 ∧
    CheckAllModel [default] 10000 (fun _ => envPortless) [] ≠
      [CheckConfig 1 default 10000 envPortless] := by
  refine ⟨?_, rfl, rfl, rfl, by decide⟩
  simp [ValidSchedule]

/-- C6 amended: the worker-spawning loop enforces no minimum pool size.
With `workers ≥ 1` every configuration is checked and its Result lands in
its slot; with `workers ≤ 0` no worker is spawned, no check runs and
`CheckAll` returns the all-zero Result slice. -/
theorem checkAll_worker_count (configs : List ProxyConfig) (timeoutMs : Nat)
    (envs : Nat → CheckEnv) (workers : Int) (order : List Nat)
    (hs : ValidSchedule workers configs.length order) :
    (1 ≤ workers →
      (CheckAllModel configs timeoutMs envs order).length = configs.length ∧
      ∀ i, i < configs.length →
        (CheckAllModel configs timeoutMs envs order).getD i Result.zero =
          CheckConfig (i + 1) (configs.getD i default) timeoutMs (envs i)) ∧
    (workers ≤ 0 →
      CheckAllModel configs timeoutMs envs order =
        List.replicate configs.length Result.zero) := by
  constructor
  · intro hw
    have hperm : order.Perm (List.range configs.length) := by
      unfold ValidSchedule at hs
      rwa [if_pos hw] at hs
    exact checkAllModel_spec configs timeoutMs envs order
      (fun i hi => hperm.mem_iff.mpr (List.mem_range.mpr hi))
  · intro hw
    have horder : order = [] := by
      unfold ValidSchedule at hs
      rwa [if_neg (by omega)] at hs
    subst horder
    rfl

theorem checkAll_worker_count_witness :
    ((1 : Int) ≤ 0 →
      (CheckAllModel [default] 10000 (fun _ => envPortless) []).length = 1 ∧
      ∀ i, i < ([default] : List ProxyConfig).length →
        (CheckAllModel [default] 10000 (fun _ => envPortless) []).getD i Result.zero =
          CheckConfig (i + 1) (([default] : List ProxyConfig).getD i default) 10000 envPortless) ∧
    ((0 : Int) ≤ 0 →
      CheckAllModel [default] 10000 (fun _ => envPortless) [] =
        List.replicate 1 Result.zero) :=
  checkAll_worker_count [default] 10000 (fun _ => envPortless) 0 []
    (by simp [ValidSchedule])

/-! ## Claim C4: vmess port/aid coercion -/

theorem isDigitChar_bounds (c : Char) (h : isDigitChar c = true) :
    48 ≤ c.toNat ∧ c.toNat ≤ 57 := by
  simpa [isDigitChar] using h

/-- An all-digit fold stays below `(acc+1) * 10^len`. -/
theorem digits_foldl_lt (cs : List Char) (acc : Nat)
    (h : ∀ c ∈ cs, isDigitChar c = true) :
    cs.foldl (fun a c => a * 10 + (c.toNat - 48)) acc < (acc + 1) * 10 ^ cs.length := by
  induction cs generalizing acc with
  | nil => simp
  | cons c rest ih =>
    have hc := isDigitChar_bounds c (h c (List.mem_cons_self c rest))
    have hlt := ih (acc * 10 + (c.toNat - 48)) (fun x hx => h x (List.mem_cons_of_mem c hx))
    have hstep : (acc * 10 + (c.toNat - 48) + 1) * 10 ^ rest.length ≤
        (acc + 1) * 10 ^ (c :: rest).length := by
      have h9 : c.toNat - 48 ≤ 9 := by omega
      have : acc * 10 + (c.toNat - 48) + 1 ≤ (acc + 1) * 10 := by omega
      calc (acc * 10 + (c.toNat - 48) + 1) * 10 ^ rest.length
          ≤ (acc + 1) * 10 * 10 ^ rest.length := Nat.mul_le_mul_right _ this
        _ = (acc + 1) * 10 ^ (c :: rest).length := by ring_nf; rw [List.length_cons]; ring
    exact lt_of_lt_of_le hlt hstep

/-- `strconv.Atoi` succeeds on a non-empty all-digit string of at most 18
digits (no sign, no overflow). -/
theorem atoiSignSplit_no_sign (c : Char) (rest : List Char)
    (h1 : c ≠ '-') (h2 : c ≠ '+') :
    atoiSignSplit (c :: rest) = (false, c :: rest) := by
  rw [atoiSignSplit.eq_def]
  split
  · next heq =>
      exfalso
      injection heq with ha _
      exact h1 ha
  · next heq =>
      exfalso
      injection heq with ha _
      exact h2 ha
  · rfl

theorem atoi_digits_ok (s : String) (hne : s.toList ≠ [])
    (hdig : ∀ c ∈ s.toList, isDigitChar c = true)
    (hlen : s.toList.length ≤ 18) :
    ∃ n : Int, atoi s = .ok n := by
  obtain ⟨c, rest, hcs⟩ : ∃ c rest, s.toList = c :: rest := by
    cases h : s.toList with
    | nil => exact absurd h hne
    | cons c rest => exact ⟨c, rest, rfl⟩
  have hc := hdig c (by rw [hcs]; exact List.mem_cons_self c rest)
  have hsplit : atoiSignSplit s.toList = (false, s.toList) := by
    rw [hcs]
    refine atoiSignSplit_no_sign c rest ?_ ?_ <;>
      intro hcc <;> subst hcc <;> simp [isDigitChar] at hc
  have hall : s.toList.all isDigitChar = true := List.all_eq_true.mpr hdig
  have hbound := digits_foldl_lt s.toList 0 hdig
  simp only [atoi]
  rw [hsplit]
  rw [if_neg (by
    simp only [Bool.or_eq_true, Bool.not_eq_true', List.isEmpty_iff, not_or]
    exact ⟨hne, by simp [hall]; exact hdig⟩)]
  rw [if_neg]
  · exact ⟨_, rfl⟩
  · have h10 : (10 : Nat) ^ s.toList.length ≤ 10 ^ 18 :=
      Nat.pow_le_pow_right (by omega) hlen
    have hlt : s.toList.foldl (fun a c => a * 10 + (c.toNat - 48)) 0 < 10 ^ 18 := by
      calc s.toList.foldl (fun a c => a * 10 + (c.toNat - 48)) 0
          < (0 + 1) * 10 ^ s.toList.length := hbound
        _ = 10 ^ s.toList.length := by ring
        _ ≤ 10 ^ 18 := h10
    simp only [Bool.or_eq_true, not_or, decide_eq_true_eq, Bool.false_eq_true, if_false]
    constructor <;> push_cast <;> omega

/-- C4 counterexample: a vmess payload whose `aid` field is the JSON boolean
`true` (neither number nor string nor null) parses successfully with
`Aid = 0` — Go discards the coercion error (`aid, _ := toInt(v.Aid)`) —
refuting "any other JSON type in either field makes Parse fail". -/
theorem vmess_aid_bool_parses :
    parseVmessCore
      { Add := "h", Aid := .bool true, ID := "u", Net := "tcp", Path := "",
        Port := .num 80, PS := "", Scy := "", SNI := "", TLS := "",
        Typ := "", Host := "" } =
      .ok { Name := "h:80", UUID := "u", Server := "h", Port := 80, Aid := 0,
            Security := "auto", Network := "tcp", TLS := "", SNI := "",
            Host := "", Path := "" } := by
  rfl

/-- C4 amended: for the *port* field a JSON number, a numeric string (within
the 64-bit range; 18 digits suffice here), the empty string and `null` all
coerce (empty string and null to 0) and any other JSON type fails `Parse`
with the port-coercion error; for the *alterId* field the same coercions
apply, but a failing coercion is silently discarded — `Parse` still
succeeds and `Aid` becomes 0.  Parsing fails on the port's coercion error
and on nothing else. -/
theorem vmess_port_aid_coercion :
    (∀ n : Int, toInt (.num n) = .ok n) ∧
    (toInt (.str "") = .ok 0) ∧
    (toInt .null = .ok 0) ∧
    (∀ s : String, s.toList ≠ [] → (∀ c ∈ s.toList, isDigitChar c = true) →
      s.toList.length ≤ 18 → ∃ n : Int, toInt (.str s) = .ok n) ∧
    (∀ b : Bool, toInt (.bool b) = .error "unexpected type bool") ∧
    (toInt .arr = .error "unexpected type []interface {}") ∧
    (toInt .obj = .error "unexpected type map[string]interface {}") ∧
    (∀ (v : VmessJSON) (e : String), toInt v.Port = .error e →
      parseVmessCore v = .error ("vmess port: " ++ e)) ∧
    (∀ (v : VmessJSON) (port : Int), toInt v.Port = .ok port →
      ∃ cfg, parseVmessCore v = .ok cfg ∧
        cfg.Aid = (match toInt v.Aid with | .ok a => a | .error _ => 0) ∧
        cfg.Port = port) := by
  refine ⟨fun n => rfl, rfl, rfl, ?_, fun b => rfl, rfl, rfl, ?_, ?_⟩
  · intro s hne hdig hlen
    have hs : (s == "") = false := by
      have : s ≠ "" := by
        intro hc
        subst hc
        exact hne rfl
      simpa [beq_iff_eq] using this
    rw [toInt, hs]
    · exact atoi_digits_ok s hne hdig hlen
  · intro v e he
    rw [parseVmessCore, he]
  · intro v port hp
    rw [parseVmessCore, hp]
    exact ⟨_, rfl, rfl, rfl⟩

/-- Witness for C4's amended statement at concrete inputs. -/
theorem vmess_port_aid_coercion_witness :
    (toInt (.num 8080) = .ok 8080) ∧
    (∃ n : Int, toInt (.str "443") = .ok n) ∧
    (∃ cfg, parseVmessCore
        { Add := "h", Aid := .obj, ID := "u", Net := "", Path := "",
          Port := .num 80, PS := "", Scy := "", SNI := "", TLS := "",
          Typ := "", Host := "" } = .ok cfg ∧
      cfg.Aid = (match toInt (Jval.obj) with | .ok a => a | .error _ => 0) ∧
      cfg.Port = 80) ∧
    (parseVmessCore
        { Add := "h", Aid := .num 0, ID := "u", Net := "", Path := "",
          Port := .bool true, PS := "", Scy := "", SNI := "", TLS := "",
          Typ := "", Host := "" } =
      .error ("vmess port: " ++ "unexpected type bool")) :=
  ⟨vmess_port_aid_coercion.1 8080,
   vmess_port_aid_coercion.2.2.2.1 "443" (by decide) (by decide) (by decide),
   vmess_port_aid_coercion.2.2.2.2.2.2.2.2
     { Add := "h", Aid := .obj, ID := "u", Net := "", Path := "",
       Port := .num 80, PS := "", Scy := "", SNI := "", TLS := "",
       Typ := "", Host := "" } 80 rfl,
   vmess_port_aid_coercion.2.2.2.2.2.2.2.1
     { Add := "h", Aid := .num 0, ID := "u", Net := "", Path := "",
       Port := .bool true, PS := "", Scy := "", SNI := "", TLS := "",
       Typ := "", Host := "" } "unexpected type bool" rfl⟩

/-! ## Claim C7: parser defaults -/

theorem queryGet_eq_empty (pairs : List (String × String)) (key : String)
    (h : ∀ p ∈ pairs, p.1 ≠ key) : queryGet pairs key = "" := by
  unfold queryGet
  rw [List.find?_eq_none.mpr]
  intro p hp
  simpa [beq_iff_eq] using h p hp

/-- C7: default filling on parse — a vless URI without a `security` query
parameter parses with `Security = ""` while a trojan URI without one gets
`Security = "tls"`; an absent port defaults to 443 for vless and trojan and
to 8388 for shadowsocks; a vmess payload without a cipher (`scy`) field gets
`Security = "auto"`. -/
theorem parser_defaults :
    (∀ raw u cfg, urlParse raw = some u →
      (∀ p ∈ parseQueryPairs u.rawQuery.toList, p.1 ≠ "security") →
      parseVless raw = .ok cfg → cfg.Security = "") ∧
    (∀ raw u cfg, urlParse raw = some u →
      (∀ p ∈ parseQueryPairs u.rawQuery.toList, p.1 ≠ "security") →
      parseTrojan raw = .ok cfg → cfg.Security = "tls") ∧
    (∀ raw u cfg, urlParse raw = some u → u.portStr = "" →
      parseVless raw = .ok cfg → cfg.Port = 443) ∧
    (∀ raw u cfg, urlParse raw = some u → u.portStr = "" →
      parseTrojan raw = .ok cfg → cfg.Port = 443) ∧
    (∀ raw u cfg, urlParse raw = some u → u.portStr = "" →
      parseSS raw = .ok cfg → cfg.Port = 8388) ∧
    (∀ v cfg, v.Scy = "" → parseVmessCore v = .ok cfg →
      cfg.Security = "auto") := by
  refine ⟨?_, ?_, ?_, ?_, ?_, ?_⟩
  · intro raw u cfg hu hq hok
    simp only [parseVless, hu] at hok
    cases hatoi : atoi (if u.portStr == "" then "443" else u.portStr) with
    | error e =>
      simp only [hatoi] at hok
      exact absurd hok (by simp)
    | ok port =>
      simp only [hatoi] at hok
      injection hok with hok
      rw [← hok]
      exact queryGet_eq_empty _ _ hq
  · intro raw u cfg hu hq hok
    simp only [parseTrojan, hu] at hok
    cases hatoi : atoi (if u.portStr == "" then "443" else u.portStr) with
    | error e =>
      simp only [hatoi] at hok
      exact absurd hok (by simp)
    | ok port =>
      simp only [hatoi] at hok
      injection hok with hok
      rw [← hok]
      simp only
      rw [queryGet_eq_empty _ _ hq]
      rfl
  · intro raw u cfg hu hp hok
    simp only [parseVless, hu] at hok
    rw [hp] at hok
    simp only [beq_self_eq_true, if_true] at hok
    have h443 : atoi "443" = .ok 443 := rfl
    simp only [h443] at hok
    injection hok with hok
    rw [← hok]
  · intro raw u cfg hu hp hok
    simp only [parseTrojan, hu] at hok
    rw [hp] at hok
    simp only [beq_self_eq_true, if_true] at hok
    have h443 : atoi "443" = .ok 443 := rfl
    simp only [h443] at hok
    injection hok with hok
    rw [← hok]
  · intro raw u cfg hu hp hok
    simp only [parseSS, hu] at hok
    rw [hp] at hok
    simp only [beq_self_eq_true, if_true] at hok
    have h8388 : atoi "8388" = .ok 8388 := rfl
    simp only [h8388] at hok
    cases hdec : base64DecodeUserinfo (userinfoString u) with
    | error e =>
      simp only [hdec] at hok
      exact absurd hok (by simp)
    | ok decoded =>
      simp only [hdec] at hok
      cases hsplit : splitN2Colon decoded with
      | none =>
        simp only [hsplit] at hok
        exact absurd hok (by simp)
      | some mp =>
        simp only [hsplit] at hok
        injection hok with hok
        rw [← hok]
  · intro v cfg hscy hok
    simp only [parseVmessCore] at hok
    cases hport : toInt v.Port with
    | error e =>
      simp only [hport] at hok
      exact absurd hok (by simp)
    | ok port =>
      simp only [hport] at hok
      injection hok with hok
      rw [← hok]
      simp only [hscy]
      rfl

/-- Witness for C7 at concrete URIs without ports, without `security`
parameters and without a vmess cipher. -/
theorem parser_defaults_witness :
    (∃ cfg, parseVless "vless://u@h" = .ok cfg ∧
      cfg.Security = "" ∧ cfg.Port = 443) ∧
    (∃ cfg, parseTrojan "trojan://p@h" = .ok cfg ∧
      cfg.Security = "tls" ∧ cfg.Port = 443) ∧
    (∃ cfg, parseSS "ss://YTpi@h" = .ok cfg ∧ cfg.Port = 8388) ∧
    (∃ cfg, parseVmessCore
        { Add := "h", Aid := .num 0, ID := "u", Net := "", Path := "",
          Port := .num 80, PS := "", Scy := "", SNI := "", TLS := "",
          Typ := "", Host := "" } = .ok cfg ∧ cfg.Security = "auto") := by
  have hvless : urlParse "vless://u@h" = some
      { scheme := "vless", hasUser := true, username := "u", hasPass := false,
        password := "", host := "h", portStr := "", rawQuery := "",
        fragment := "" } := by decide
  have htrojan : urlParse "trojan://p@h" = some
      { scheme := "trojan", hasUser := true, username := "p", hasPass := false,
        password := "", host := "h", portStr := "", rawQuery := "",
        fragment := "" } := by decide
  have hss : urlParse "ss://YTpi@h" = some
      { scheme := "ss", hasUser := true, username := "YTpi", hasPass := false,
        password := "", host := "h", portStr := "", rawQuery := "",
        fragment := "" } := by decide
  refine ⟨⟨_, rfl, ?_, ?_⟩, ⟨_, rfl, ?_, ?_⟩, ⟨_, rfl, ?_⟩,
    ⟨{ Name := "h:80", UUID := "u", Server := "h", Port := 80, Aid := 0,
       Security := "auto", Network := "", TLS := "", SNI := "", Host := "",
       Path := "" }, rfl, ?_⟩⟩
  · exact parser_defaults.1 "vless://u@h" _ _ hvless (by decide) rfl
  · exact parser_defaults.2.2.1 "vless://u@h" _ _ hvless rfl rfl
  · exact parser_defaults.2.1 "trojan://p@h" _ _ htrojan (by decide) rfl
  · exact parser_defaults.2.2.2.1 "trojan://p@h" _ _ htrojan rfl rfl
  · exact parser_defaults.2.2.2.2.1 "ss://YTpi@h" _ _ hss rfl rfl
  · exact parser_defaults.2.2.2.2.2
      { Add := "h", Aid := .num 0, ID := "u", Net := "", Path := "",
        Port := .num 80, PS := "", Scy := "", SNI := "", TLS := "",
        Typ := "", Host := "" }
      { Name := "h:80", UUID := "u", Server := "h", Port := 80, Aid := 0,
        Security := "auto", Network := "", TLS := "", SNI := "", Host := "",
        Path := "" } rfl rfl

/-! ## Claim C3: shadowsocks userinfo field splitting -/

theorem splitColonChars_eq_none (cs : List Char) :
    splitColonChars cs = none ↔ ':' ∉ cs := by
  induction cs with
  | nil => simp [splitColonChars]
  | cons c rest ih =>
    by_cases hc : c = ':'
    · subst hc
      simp [splitColonChars]
    · rw [splitColonChars, if_neg (by simpa using hc)]
      cases hsp : splitColonChars rest with
      | none =>
        simp only [Option.map_none', List.mem_cons, not_or]
        exact iff_of_true trivial ⟨fun h => hc h.symm, ih.mp hsp⟩
      | some pr =>
        simp only [Option.map_some', List.mem_cons, not_or]
        constructor
        · intro h
          exact absurd h (by simp)
        · intro ⟨_, hnr⟩
          have hnone := ih.mpr hnr
          rw [hnone] at hsp
          simp at hsp

theorem splitColonChars_eq_some (cs l1 l2 : List Char)
    (h : splitColonChars cs = some (l1, l2)) :
    cs = l1 ++ ':' :: l2 ∧ ':' ∉ l1 := by
  induction cs generalizing l1 l2 with
  | nil => simp [splitColonChars] at h
  | cons c rest ih =>
    rw [splitColonChars] at h
    by_cases hc : c = ':'
    · subst hc
      rw [if_pos (by simp)] at h
      injection h with h
      obtain ⟨h1, h2⟩ := Prod.mk.injEq .. ▸ h
      subst h1
      subst h2
      simp
    · rw [if_neg (by simpa using hc)] at h
      cases hsp : splitColonChars rest with
      | none =>
        rw [hsp] at h
        simp at h
      | some pr =>
        rw [hsp] at h
        simp only [Option.map_some', Option.some.injEq] at h
        obtain ⟨h1, h2⟩ := Prod.mk.injEq .. ▸ h
        obtain ⟨hrest, hnm⟩ := ih pr.1 pr.2 (by rw [hsp])
        subst h1
        subst h2
        constructor
        · simp [hrest]
        · simp only [List.mem_cons, not_or]
          exact ⟨fun hcc => hc hcc.symm, hnm⟩

theorem splitN2Colon_eq_none (d : String) :
    splitN2Colon d = none ↔ ':' ∉ d.toList := by
  unfold splitN2Colon
  rw [← splitColonChars_eq_none]
  cases hsp : splitColonChars d.toList <;> simp

theorem splitN2Colon_eq_some (d m p : String)
    (h : splitN2Colon d = some (m, p)) :
    d = m ++ ":" ++ p ∧ ':' ∉ m.toList := by
  unfold splitN2Colon at h
  cases hsp : splitColonChars d.toList with
  | none =>
    rw [hsp] at h
    simp at h
  | some pr =>
    rw [hsp] at h
    simp only [Option.map_some', Option.some.injEq] at h
    obtain ⟨h1, h2⟩ := Prod.mk.injEq .. ▸ h
    obtain ⟨hcs, hnm⟩ := splitColonChars_eq_some d.toList pr.1 pr.2 (by rw [hsp])
    constructor
    · apply String.ext
      rw [String.data_append, String.data_append]
      rw [← h1, ← h2]
      simpa using hcs
    · rw [← h1]
      exact hnm

/-- C3 counterexample: the decoded userinfo `"a:b:c"` contains two colons —
three colon-separated fields, "more than two" in the claim's terms — yet
`parseSS` succeeds: `strings.SplitN(decoded, ":", 2)` never yields more than
two parts, so everything after the first colon becomes the password. -/
theorem ss_multi_colon_parses :
    base64DecodeUserinfo "YTpiOmM" = .ok "a:b:c" ∧
    ("a:b:c".toList.count ':') = 2 ∧
    parseSS "ss://YTpiOmM@1.2.3.4:80" =
      .ok { Name := "1.2.3.4:80", Method := "a", Password := "b:c",
            Server := "1.2.3.4", Port := 80 } :=
  ⟨rfl, rfl, rfl⟩

/-- C3 amended: for an ss:// line whose base64 userinfo decodes to `d`,
parsing fails with the `InvalidUserinfo` error exactly when `d` contains no
colon (fewer than two fields); whenever `d` contains a colon — including
decodings with more than one colon — parsing succeeds with the method equal
to the text before the first colon and the password equal to everything
after it. -/
theorem ss_userinfo_fields (raw : String) (u : GoURL) (d : String)
    (port : Int) (hu : urlParse raw = some u)
    (hdec : base64DecodeUserinfo (userinfoString u) = .ok d)
    (hport : atoi (if u.portStr == "" then "8388" else u.portStr) = .ok port) :
    (':' ∉ d.toList →
      parseSS raw = .error ("ss userinfo format invalid: " ++ d)) ∧
    (∀ m p, splitN2Colon d = some (m, p) →
      d = m ++ ":" ++ p ∧ ':' ∉ m.toList ∧
      parseSS raw = .ok { Name := resolveName u.fragment u.host port,
                          Method := m, Password := p, Server := u.host,
                          Port := port }) := by
  constructor
  · intro hnc
    have hsp : splitN2Colon d = none := (splitN2Colon_eq_none d).mpr hnc
    simp only [parseSS, hu, hport, hdec, hsp]
  · intro m p hsp
    obtain ⟨hd, hnm⟩ := splitN2Colon_eq_some d m p hsp
    refine ⟨hd, hnm, ?_⟩
    simp only [parseSS, hu, hport, hdec, hsp]

/-- Witness for C3's amended statement: a no-colon decoding fails with the
format error, a two-colon decoding succeeds with the split at the first
colon. -/
theorem ss_userinfo_fields_witness :
    parseSS "ss://YWJj@h:1" =
      .error ("ss userinfo format invalid: " ++ "abc") ∧
    parseSS "ss://YTpiOmM@1.2.3.4:80" =
      .ok { Name := resolveName "" "1.2.3.4" 80, Method := "a",
            Password := "b:c", Server := "1.2.3.4", Port := 80 } :=
  ⟨(ss_userinfo_fields "ss://YWJj@h:1"
      { scheme := "ss", hasUser := true, username := "YWJj", hasPass := false,
        password := "", host := "h", portStr := "1", rawQuery := "",
        fragment := "" } "abc" 1 rfl rfl rfl).1 (by decide),
   ((ss_userinfo_fields "ss://YTpiOmM@1.2.3.4:80"
      { scheme := "ss", hasUser := true, username := "YTpiOmM",
        hasPass := false, password := "", host := "1.2.3.4", portStr := "80",
        rawQuery := "", fragment := "" } "a:b:c" 80 rfl rfl rfl).2
      "a" "b:c" rfl).2.2⟩

/-! ## Claim C5: base64 variant roundtrips

The decoder percent-unescapes its input before trying the three base64
variants, and `url.QueryUnescape` turns `+` into a space.  The URL-safe
alphabet never contains `+`, so URL-safe encodings (padded or not) are
unaffected; a padded *standard* encoding survives only when it happens to
contain no `+`.  The lemmas below build the per-alphabet
encode/decode roundtrip, the cross-alphabet comparisons, and the behavior
of the three-variant cascade. -/

theorem stdIx_getD (i : Nat) (hi : i < 64) :
    stdIx (stdAlphabet.getD i 'A') = some i := by
  have h := (by decide :
    ∀ j : Fin 64, stdIx (stdAlphabet.getD j.val 'A') = some j.val) ⟨i, hi⟩
  exact h

theorem urlIx_getD (i : Nat) (hi : i < 64) :
    urlIx (urlAlphabet.getD i 'A') = some i := by
  have h := (by decide :
    ∀ j : Fin 64, urlIx (urlAlphabet.getD j.val 'A') = some j.val) ⟨i, hi⟩
  exact h

theorem getD_mem {α : Type} (l : List α) (i : Nat) (d : α) (hi : i < l.length) :
    l.getD i d ∈ l := by
  rw [List.getD_eq_getElem?_getD, List.getElem?_eq_getElem hi]
  exact List.getElem_mem hi

theorem std_no_special :
    ∀ c ∈ stdAlphabet, c ≠ '%' ∧ c ≠ '\r' ∧ c ≠ '\n' ∧ c ≠ '=' := by decide

theorem url_no_special :
    ∀ c ∈ urlAlphabet, c ≠ '%' ∧ c ≠ '+' ∧ c ≠ '\r' ∧ c ≠ '\n' ∧ c ≠ '=' := by
  decide

set_option maxRecDepth 4096 in
theorem base62_ix_agree : ∀ c ∈ base62Alphabet, stdIx c = urlIx c := by decide

theorem urlAlphabet_split : ∀ c ∈ urlAlphabet, c ∈ base62Alphabet ∨ c = '-' ∨ c = '_' := by
  decide

theorem stdAlphabet_split : ∀ c ∈ stdAlphabet, c ∈ base62Alphabet ∨ c = '+' ∨ c = '/' := by
  decide

theorem special_ix_none :
    urlIx '=' = none ∧ stdIx '-' = none ∧ stdIx '_' = none ∧
    urlIx '+' = none ∧ urlIx '/' = none := by decide

/-! ### Per-alphabet roundtrip of the encode/decode cores -/

/-- All characters emitted by `b64encodeCore` come from the alphabet. -/
theorem encodeCore_subset (al : List Char) (hal : al.length = 64) :
    ∀ bs, (∀ b ∈ bs, b < 256) → ∀ c ∈ b64encodeCore al bs, c ∈ al := by
  intro bs
  induction bs using b64encodeCore.induct al with
  | case1 =>
    intro _ c hc
    simp [b64encodeCore] at hc
  | case2 x =>
    intro hb c hc
    have hx : x < 256 := hb x (by simp)
    simp only [b64encodeCore, List.mem_cons, List.not_mem_nil, or_false] at hc
    rcases hc with h | h <;> subst h <;> exact getD_mem _ _ _ (by omega)
  | case3 x y =>
    intro hb c hc
    have hx : x < 256 := hb x (by simp)
    have hy : y < 256 := hb y (by simp)
    simp only [b64encodeCore, List.mem_cons, List.not_mem_nil, or_false] at hc
    rcases hc with h | h | h <;> subst h <;> exact getD_mem _ _ _ (by omega)
  | case4 x y z rest ih =>
    intro hb c hc
    have hx : x < 256 := hb x (by simp)
    have hy : y < 256 := hb y (by simp)
    have hz : z < 256 := hb z (by simp)
    simp only [b64encodeCore, List.mem_cons] at hc
    rcases hc with h | h | h | h | h
    · subst h; exact getD_mem _ _ _ (by omega)
    · subst h; exact getD_mem _ _ _ (by omega)
    · subst h; exact getD_mem _ _ _ (by omega)
    · subst h; exact getD_mem _ _ _ (by omega)
    · exact ih (fun b hbm => hb b (by simp [hbm])) c h

/-- Length of the unpadded encoding. -/
theorem encodeCore_length (al : List Char) :
    ∀ bs : List Nat, (b64encodeCore al bs).length =
      4 * (bs.length / 3) +
        (match bs.length % 3 with | 0 => 0 | 1 => 2 | _ => 3) := by
  intro bs
  induction bs using b64encodeCore.induct al with
  | case1 => simp [b64encodeCore]
  | case2 x => simp [b64encodeCore]
  | case3 x y => simp [b64encodeCore]
  | case4 x y z rest ih =>
    simp only [b64encodeCore, List.length_cons, ih]
    have h3 : (rest.length + 1 + 1 + 1) / 3 = rest.length / 3 + 1 := by omega
    have h3m : (rest.length + 1 + 1 + 1) % 3 = rest.length % 3 := by omega
    rw [h3, h3m]
    omega

theorem quantum4_bytes (x y z : Nat) (_hx : x < 256) (hy : y < 256)
    (hz : z < 256) :
    quantum4 (x / 4) (x % 4 * 16 + y / 16) (y % 16 * 4 + z / 64) (z % 64) =
      [x, y, z] := by
  simp only [quantum4, List.cons.injEq, and_true]
  refine ⟨?_, ?_, ?_⟩ <;> omega

/-- Decoding inverts encoding over a matched alphabet/index pair. -/
theorem decodeCore_encodeCore (al : List Char)
    (ix : Char → Option Nat)
    (hix : ∀ i, i < 64 → ix (al.getD i 'A') = some i) :
    ∀ bs, (∀ b ∈ bs, b < 256) →
      b64decodeCore ix (b64encodeCore al bs) = some bs := by
  intro bs
  induction bs using b64encodeCore.induct al with
  | case1 => intro _; rfl
  | case2 x =>
    intro hb
    have hx : x < 256 := hb x (by simp)
    simp only [b64encodeCore, b64decodeCore, Option.bind_eq_bind]
    rw [hix (x / 4) (by omega), hix (x % 4 * 16) (by omega)]
    simp only [Option.some_bind, Option.some.injEq, List.cons.injEq, and_true]
    omega
  | case3 x y =>
    intro hb
    have hx : x < 256 := hb x (by simp)
    have hy : y < 256 := hb y (by simp)
    simp only [b64encodeCore, b64decodeCore, Option.bind_eq_bind]
    rw [hix (x / 4) (by omega), hix (x % 4 * 16 + y / 16) (by omega),
      hix (y % 16 * 4) (by omega)]
    simp only [Option.some_bind, Option.some.injEq, List.cons.injEq, and_true]
    refine ⟨?_, ?_⟩ <;> omega
  | case4 x y z rest ih =>
    intro hb
    have hx : x < 256 := hb x (by simp)
    have hy : y < 256 := hb y (by simp)
    have hz : z < 256 := hb z (by simp)
    have ihr := ih (fun b hbm => hb b (by simp [hbm]))
    simp only [b64encodeCore, b64decodeCore, Option.bind_eq_bind]
    rw [hix (x / 4) (by omega), hix (x % 4 * 16 + y / 16) (by omega),
      hix (y % 16 * 4 + z / 64) (by omega), hix (z % 64) (by omega)]
    simp only [Option.some_bind, ihr, Option.some.injEq]
    rw [quantum4_bytes x y z hx hy hz]
    rfl

/-- A character outside the alphabet poisons the whole quantum decode. -/
theorem decodeCore_none_of_mem (ix : Char → Option Nat) :
    ∀ cs c, c ∈ cs → ix c = none → b64decodeCore ix cs = none := by
  intro cs
  induction cs using b64decodeCore.induct ix with
  | case1 =>
    intro c hc
    simp at hc
  | case2 a =>
    intro c _ _
    rfl
  | case3 a b =>
    intro c hc hnone
    simp only [List.mem_cons, List.not_mem_nil, or_false] at hc
    simp only [b64decodeCore, Option.bind_eq_bind]
    rcases hc with h | h <;> subst h
    · rw [hnone]; rfl
    · cases ix a <;> simp [hnone]
  | case4 a b c' =>
    intro c hc hnone
    simp only [List.mem_cons, List.not_mem_nil, or_false] at hc
    simp only [b64decodeCore, Option.bind_eq_bind]
    rcases hc with h | h | h <;> subst h
    · rw [hnone]; rfl
    · cases ix a <;> simp [hnone]
    · cases ix a <;> cases ix b <;> simp [hnone]
  | case5 a b c' d rest ih =>
    intro c hc hnone
    simp only [List.mem_cons] at hc
    simp only [b64decodeCore, Option.bind_eq_bind]
    rcases hc with h | h | h | h | h
    · subst h; rw [hnone]; rfl
    · subst h; cases ix a <;> simp [hnone]
    · subst h; cases ix a <;> cases ix b <;> simp [hnone]
    · subst h; cases ix a <;> cases ix b <;> cases ix c' <;> simp [hnone]
    · have := ih c h hnone
      cases ix a <;> cases ix b <;> cases ix c' <;> cases ix d <;> simp [this]

/-- Decoding only looks at the index function on the input's characters. -/
theorem decodeCore_congr (ix1 ix2 : Char → Option Nat) :
    ∀ cs, (∀ c ∈ cs, ix1 c = ix2 c) →
      b64decodeCore ix1 cs = b64decodeCore ix2 cs := by
  intro cs
  induction cs using b64decodeCore.induct ix1 with
  | case1 => intro _; rfl
  | case2 a => intro _; rfl
  | case3 a b =>
    intro h
    simp only [b64decodeCore, Option.bind_eq_bind]
    rw [h a (by simp), h b (by simp)]
  | case4 a b c =>
    intro h
    simp only [b64decodeCore, Option.bind_eq_bind]
    rw [h a (by simp), h b (by simp), h c (by simp)]
  | case5 a b c d rest ih =>
    intro h
    simp only [b64decodeCore, Option.bind_eq_bind]
    rw [h a (by simp), h b (by simp), h c (by simp), h d (by simp),
      ih (fun x hx => h x (by simp [hx]))]

/-! ### Percent-unescape and newline-filter invariance on encoder output -/

theorem unescapeChars_id (pts : Bool) :
    ∀ cs, (∀ c ∈ cs, c ≠ '%' ∧ c ≠ '+') → unescapeChars pts cs = some cs := by
  intro cs
  induction cs using unescapeChars.induct pts with
  | case1 => intro _; rfl
  | case2 a b rest ih =>
    intro h
    exact absurd rfl (h '%' (by simp)).1
  | case3 tail htail =>
    intro h
    exact absurd rfl (h '%' (by simp)).1
  | case4 c rest hno hne ih =>
    intro h
    rw [unescapeChars.eq_4 pts c rest hno hne]
    rw [ih (fun x hx => h x (by simp [hx]))]
    have hplus : (c == '+') = false := by
      simpa [beq_iff_eq] using (h c (by simp)).2
    simp [hplus]

theorem filter_notNewline_id (cs : List Char)
    (h : ∀ c ∈ cs, c ≠ '\r' ∧ c ≠ '\n') : cs.filter notNewline = cs :=
  List.filter_eq_self.mpr fun c hc => by
    simp [notNewline, bne_iff_ne, (h c hc).1, (h c hc).2]

theorem takeWhile_append_all {α : Type} (p : α → Bool) (xs ys : List α)
    (hxs : ∀ x ∈ xs, p x = true) :
    (xs ++ ys).takeWhile p = xs ++ ys.takeWhile p := by
  induction xs with
  | nil => simp
  | cons a rest ih =>
    rw [List.cons_append, List.takeWhile_cons, hxs a (by simp)]
    simp only [if_true]
    rw [ih (fun x hx => hxs x (by simp [hx]))]
    simp

theorem takeWhile_nil_of_all_false {α : Type} (p : α → Bool) (xs : List α)
    (h : ∀ x ∈ xs, p x = false) : xs.takeWhile p = [] := by
  cases xs with
  | nil => rfl
  | cons a rest =>
    rw [List.takeWhile_cons, h a (by simp)]
    simp

/-- Trailing `=` count of encoder output + padding. -/
theorem trailing_eq_count (core pads : List Char)
    (hcore : ∀ c ∈ core, c ≠ '=') (hpads : ∀ c ∈ pads, c = '=') :
    ((core ++ pads).reverse.takeWhile (fun c => c == '=')).length =
      pads.length := by
  rw [List.reverse_append]
  rw [takeWhile_append_all _ _ _
    (fun c hc => by simp [hpads c (List.mem_reverse.mp hc)])]
  rw [takeWhile_nil_of_all_false _ _
    (fun c hc => by simpa [beq_iff_eq] using hcore c (List.mem_reverse.mp hc))]
  simp

theorem b64pads_all_eq (n : Nat) : ∀ c ∈ b64pads n, c = '=' := by
  unfold b64pads
  rcases (by omega : n % 3 = 0 ∨ n % 3 = 1 ∨ n % 3 = 2) with h3 | h3 | h3 <;>
    simp [h3]

theorem b64pads_length (n : Nat) :
    (b64pads n).length = match n % 3 with | 1 => 2 | 2 => 1 | _ => 0 := by
  unfold b64pads
  rcases (by omega : n % 3 = 0 ∨ n % 3 = 1 ∨ n % 3 = 2) with h3 | h3 | h3 <;>
    simp [h3]

/-- The padded encoding always has a multiple-of-4 length. -/
theorem encode_padded_len_mod4 (al : List Char) (bs : List Nat) :
    (b64encode al true bs).length % 4 = 0 := by
  have h := encodeCore_length al bs
  unfold b64encode
  simp only [if_true, List.length_append]
  rcases (by omega : bs.length % 3 = 0 ∨ bs.length % 3 = 1 ∨ bs.length % 3 = 2)
    with h3 | h3 | h3 <;> rw [h3] at h <;>
    simp only [b64pads, h3, h] <;> simp <;> omega

theorem padForLen_of_mod4 (cs : List Char) (h : cs.length % 4 = 0) :
    padForLen cs = cs := by
  unfold padForLen
  rw [h]

/-- On a padded encoding, the padded decoder reduces to the core decoder on
the unpadded part, for *any* index function: the filter, length check and
padding strip do not consult the alphabet. -/
theorem decodePadded_on_encode (al : List Char) (hal : al.length = 64)
    (hnsp : ∀ c ∈ al, c ≠ '\r' ∧ c ≠ '\n' ∧ c ≠ '=')
    (ix : Char → Option Nat) (bs : List Nat) (hb : ∀ b ∈ bs, b < 256) :
    b64decodePadded ix (b64encode al true bs) =
      b64decodeCore ix (b64encodeCore al bs) := by
  have hmem := encodeCore_subset al hal bs hb
  have hpads := b64pads_all_eq bs.length
  have hplen := b64pads_length bs.length
  have hmod4 := encode_padded_len_mod4 al bs
  have hple2 : (b64pads bs.length).length ≤ 2 := by
    rcases (by omega : bs.length % 3 = 0 ∨ bs.length % 3 = 1 ∨ bs.length % 3 = 2)
      with h3 | h3 | h3 <;> simp [b64pads, h3]
  unfold b64encode at hmod4 ⊢
  simp only [if_true] at hmod4 ⊢
  simp only [b64decodePadded]
  rw [filter_notNewline_id _ (by
    intro c hc
    rw [List.mem_append] at hc
    rcases hc with hc | hc
    · exact ⟨(hnsp c (hmem c hc)).1, (hnsp c (hmem c hc)).2.1⟩
    · rw [hpads c hc]
      exact ⟨by decide, by decide⟩)]
  rw [trailing_eq_count _ _ (fun c hc => (hnsp c (hmem c hc)).2.2) hpads]
  rw [if_neg (by rw [List.length_append] at hmod4; simp [hmod4])]
  rw [if_neg (by omega)]
  rw [List.length_append,
    show (b64encodeCore al bs).length + (b64pads bs.length).length -
        (b64pads bs.length).length = (b64encodeCore al bs).length from by omega,
    List.take_left]

/-! ### The three-variant cascade on encoder outputs -/

theorem urlAlphabet_length : urlAlphabet.length = 64 := by decide

theorem stdAlphabet_length : stdAlphabet.length = 64 := by decide

theorem url_nsp : ∀ c ∈ urlAlphabet, c ≠ '\r' ∧ c ≠ '\n' ∧ c ≠ '=' :=
  fun c hc => ⟨(url_no_special c hc).2.2.1, (url_no_special c hc).2.2.2.1,
    (url_no_special c hc).2.2.2.2⟩

theorem std_nsp : ∀ c ∈ stdAlphabet, c ≠ '\r' ∧ c ≠ '\n' ∧ c ≠ '=' :=
  fun c hc => ⟨(std_no_special c hc).2.1, (std_no_special c hc).2.2.1,
    (std_no_special c hc).2.2.2⟩

/-- Unpadded URL-safe roundtrip: the first decode attempt recovers the
plaintext. -/
theorem decodeUserinfo_raw_roundtrip (bs : List Nat)
    (hb : ∀ b ∈ bs, b < 256) :
    base64DecodeUserinfo ⟨b64encode urlAlphabet false bs⟩ =
      .ok (bytesToString bs) := by
  have hmem := encodeCore_subset urlAlphabet urlAlphabet_length bs hb
  have henc : b64encode urlAlphabet false bs = b64encodeCore urlAlphabet bs := by
    simp [b64encode]
  rw [henc]
  have hqu : queryUnescape ⟨b64encodeCore urlAlphabet bs⟩ =
      some ⟨b64encodeCore urlAlphabet bs⟩ := by
    unfold queryUnescape
    rw [show (String.mk (b64encodeCore urlAlphabet bs)).toList =
        b64encodeCore urlAlphabet bs from rfl]
    rw [unescapeChars_id true _ (fun c hc =>
      ⟨(url_no_special c (hmem c hc)).1, (url_no_special c (hmem c hc)).2.1⟩)]
    rfl
  have hdec : b64decodeRaw urlIx (b64encodeCore urlAlphabet bs) = some bs := by
    unfold b64decodeRaw
    rw [filter_notNewline_id _ (fun c hc =>
      ⟨(url_nsp c (hmem c hc)).1, (url_nsp c (hmem c hc)).2.1⟩)]
    exact decodeCore_encodeCore urlAlphabet urlIx urlIx_getD bs hb
  simp only [base64DecodeUserinfo, hqu, Option.getD_some]
  rw [show (String.mk (b64encodeCore urlAlphabet bs)).toList =
      b64encodeCore urlAlphabet bs from rfl]
  simp only [hdec]

/-- Padded URL-safe roundtrip: whichever of the three attempts succeeds
first yields the plaintext, and the third always succeeds. -/
theorem decodeUserinfo_urlpadded_roundtrip (bs : List Nat)
    (hb : ∀ b ∈ bs, b < 256) :
    base64DecodeUserinfo ⟨b64encode urlAlphabet true bs⟩ =
      .ok (bytesToString bs) := by
  have hmem := encodeCore_subset urlAlphabet urlAlphabet_length bs hb
  have hpads := b64pads_all_eq bs.length
  have henc : b64encode urlAlphabet true bs =
      b64encodeCore urlAlphabet bs ++ b64pads bs.length := by
    simp [b64encode]
  have hchars : ∀ c ∈ b64encodeCore urlAlphabet bs ++ b64pads bs.length,
      c ≠ '%' ∧ c ≠ '+' ∧ c ≠ '\r' ∧ c ≠ '\n' := by
    intro c hc
    rw [List.mem_append] at hc
    rcases hc with hc | hc
    · exact ⟨(url_no_special c (hmem c hc)).1, (url_no_special c (hmem c hc)).2.1,
        (url_no_special c (hmem c hc)).2.2.1, (url_no_special c (hmem c hc)).2.2.2.1⟩
    · rw [hpads c hc]
      exact ⟨by decide, by decide, by decide, by decide⟩
  have hqu : queryUnescape ⟨b64encodeCore urlAlphabet bs ++ b64pads bs.length⟩ =
      some ⟨b64encodeCore urlAlphabet bs ++ b64pads bs.length⟩ := by
    unfold queryUnescape
    rw [show (String.mk (b64encodeCore urlAlphabet bs ++ b64pads bs.length)).toList =
        b64encodeCore urlAlphabet bs ++ b64pads bs.length from rfl]
    rw [unescapeChars_id true _ (fun c hc => ⟨(hchars c hc).1, (hchars c hc).2.1⟩)]
    rfl
  have hfil : (b64encodeCore urlAlphabet bs ++ b64pads bs.length).filter notNewline =
      b64encodeCore urlAlphabet bs ++ b64pads bs.length :=
    filter_notNewline_id _ (fun c hc => ⟨(hchars c hc).2.2.1, (hchars c hc).2.2.2⟩)
  have hmod4 : (b64encodeCore urlAlphabet bs ++ b64pads bs.length).length % 4 = 0 := by
    rw [← henc]
    exact encode_padded_len_mod4 _ _
  have hpadfix := padForLen_of_mod4 _ hmod4
  have hcoredec : b64decodeCore urlIx (b64encodeCore urlAlphabet bs) = some bs :=
    decodeCore_encodeCore urlAlphabet urlIx urlIx_getD bs hb
  have hpadded_url : b64decodePadded urlIx
      (b64encodeCore urlAlphabet bs ++ b64pads bs.length) = some bs := by
    rw [← henc, decodePadded_on_encode urlAlphabet urlAlphabet_length url_nsp urlIx bs hb]
    exact hcoredec
  have hpadded_std : ∀ b, b64decodePadded stdIx
      (b64encodeCore urlAlphabet bs ++ b64pads bs.length) = some b → b = bs := by
    intro b hstd
    rw [← henc, decodePadded_on_encode urlAlphabet urlAlphabet_length url_nsp stdIx bs hb] at hstd
    by_cases hall : ∀ c ∈ b64encodeCore urlAlphabet bs, c ∈ base62Alphabet
    · rw [decodeCore_congr stdIx urlIx _ (fun c hc => base62_ix_agree c (hall c hc))] at hstd
      rw [hcoredec] at hstd
      exact (Option.some.injEq .. ▸ hstd).symm ▸ rfl
    · push_neg at hall
      obtain ⟨c, hcmem, hcnot⟩ := hall
      rcases urlAlphabet_split c (hmem c hcmem) with h | h | h
      · exact absurd h hcnot
      · rw [decodeCore_none_of_mem stdIx _ c hcmem (h ▸ special_ix_none.2.1)] at hstd
        cases hstd
      · rw [decodeCore_none_of_mem stdIx _ c hcmem (h ▸ special_ix_none.2.2.1)] at hstd
        cases hstd
  have hraw_char : ∀ b, b64decodeRaw urlIx
      (b64encodeCore urlAlphabet bs ++ b64pads bs.length) = some b → b = bs := by
    intro b hraw
    unfold b64decodeRaw at hraw
    rw [hfil] at hraw
    by_cases hp : b64pads bs.length = []
    · rw [hp, List.append_nil, hcoredec] at hraw
      exact (Option.some.injEq .. ▸ hraw).symm ▸ rfl
    · obtain ⟨c, hcmem⟩ := List.exists_mem_of_ne_nil _ hp
      have hceq := hpads c hcmem
      rw [decodeCore_none_of_mem urlIx _ c
        (List.mem_append.mpr (Or.inr hcmem)) (hceq ▸ special_ix_none.1)] at hraw
      cases hraw
  rw [henc]
  simp only [base64DecodeUserinfo, hqu, Option.getD_some]
  rw [show (String.mk (b64encodeCore urlAlphabet bs ++ b64pads bs.length)).toList =
      b64encodeCore urlAlphabet bs ++ b64pads bs.length from rfl]
  rw [hpadfix]
  cases hraw : b64decodeRaw urlIx (b64encodeCore urlAlphabet bs ++ b64pads bs.length) with
  | some b =>
    rw [hraw_char b hraw]
  | none =>
    cases hstd : b64decodePadded stdIx
        (b64encodeCore urlAlphabet bs ++ b64pads bs.length) with
    | some b =>
      rw [hpadded_std b hstd]
    | none =>
      simp only [hpadded_url]

/-- Padded standard roundtrip, provided the encoding contains no `+` (which
percent-unescaping would destroy). -/
theorem decodeUserinfo_stdpadded_roundtrip (bs : List Nat)
    (hb : ∀ b ∈ bs, b < 256)
    (hplus : '+' ∉ b64encode stdAlphabet true bs) :
    base64DecodeUserinfo ⟨b64encode stdAlphabet true bs⟩ =
      .ok (bytesToString bs) := by
  have hmem := encodeCore_subset stdAlphabet stdAlphabet_length bs hb
  have hpads := b64pads_all_eq bs.length
  have henc : b64encode stdAlphabet true bs =
      b64encodeCore stdAlphabet bs ++ b64pads bs.length := by
    simp [b64encode]
  rw [henc] at hplus
  have hchars : ∀ c ∈ b64encodeCore stdAlphabet bs ++ b64pads bs.length,
      c ≠ '%' ∧ c ≠ '+' ∧ c ≠ '\r' ∧ c ≠ '\n' := by
    intro c hc
    have hcplus : c ≠ '+' := fun hceq => hplus (hceq ▸ hc)
    rw [List.mem_append] at hc
    rcases hc with hc | hc
    · exact ⟨(std_no_special c (hmem c hc)).1, hcplus,
        (std_no_special c (hmem c hc)).2.1, (std_no_special c (hmem c hc)).2.2.1⟩
    · rw [hpads c hc]
      exact ⟨by decide, by decide, by decide, by decide⟩
  have hqu : queryUnescape ⟨b64encodeCore stdAlphabet bs ++ b64pads bs.length⟩ =
      some ⟨b64encodeCore stdAlphabet bs ++ b64pads bs.length⟩ := by
    unfold queryUnescape
    rw [show (String.mk (b64encodeCore stdAlphabet bs ++ b64pads bs.length)).toList =
        b64encodeCore stdAlphabet bs ++ b64pads bs.length from rfl]
    rw [unescapeChars_id true _ (fun c hc => ⟨(hchars c hc).1, (hchars c hc).2.1⟩)]
    rfl
  have hfil : (b64encodeCore stdAlphabet bs ++ b64pads bs.length).filter notNewline =
      b64encodeCore stdAlphabet bs ++ b64pads bs.length :=
    filter_notNewline_id _ (fun c hc => ⟨(hchars c hc).2.2.1, (hchars c hc).2.2.2⟩)
  have hmod4 : (b64encodeCore stdAlphabet bs ++ b64pads bs.length).length % 4 = 0 := by
    rw [← henc]
    exact encode_padded_len_mod4 _ _
  have hpadfix := padForLen_of_mod4 _ hmod4
  have hcoredec : b64decodeCore stdIx (b64encodeCore stdAlphabet bs) = some bs :=
    decodeCore_encodeCore stdAlphabet stdIx stdIx_getD bs hb
  have hpadded_std : b64decodePadded stdIx
      (b64encodeCore stdAlphabet bs ++ b64pads bs.length) = some bs := by
    rw [← henc, decodePadded_on_encode stdAlphabet stdAlphabet_length std_nsp stdIx bs hb]
    exact hcoredec
  have hraw_char : ∀ b, b64decodeRaw urlIx
      (b64encodeCore stdAlphabet bs ++ b64pads bs.length) = some b → b = bs := by
    intro b hraw
    unfold b64decodeRaw at hraw
    rw [hfil] at hraw
    by_cases hp : b64pads bs.length = []
    · rw [hp, List.append_nil] at hraw
      by_cases hall : ∀ c ∈ b64encodeCore stdAlphabet bs, c ∈ base62Alphabet
      · rw [decodeCore_congr urlIx stdIx _
          (fun c hc => (base62_ix_agree c (hall c hc)).symm)] at hraw
        rw [hcoredec] at hraw
        exact (Option.some.injEq .. ▸ hraw).symm ▸ rfl
      · push_neg at hall
        obtain ⟨c, hcmem, hcnot⟩ := hall
        rcases stdAlphabet_split c (hmem c hcmem) with h | h | h
        · exact absurd h hcnot
        · exact absurd (List.mem_append.mpr (Or.inl hcmem))
            (h ▸ fun hc => (hchars '+' hc).2.1 rfl)
        · rw [decodeCore_none_of_mem urlIx _ c hcmem
            (h ▸ special_ix_none.2.2.2.2)] at hraw
          cases hraw
    · obtain ⟨c, hcmem⟩ := List.exists_mem_of_ne_nil _ hp
      have hceq := hpads c hcmem
      rw [decodeCore_none_of_mem urlIx _ c
        (List.mem_append.mpr (Or.inr hcmem)) (hceq ▸ special_ix_none.1)] at hraw
      cases hraw
  rw [henc]
  simp only [base64DecodeUserinfo, hqu, Option.getD_some]
  rw [show (String.mk (b64encodeCore stdAlphabet bs ++ b64pads bs.length)).toList =
      b64encodeCore stdAlphabet bs ++ b64pads bs.length from rfl]
  rw [hpadfix]
  cases hraw : b64decodeRaw urlIx (b64encodeCore stdAlphabet bs ++ b64pads bs.length) with
  | some b =>
    rw [hraw_char b hraw]
  | none =>
    simp only [hpadded_std]

/-- The cascade errors exactly when all three decode attempts fail. -/
theorem decodeUserinfo_error_iff (s : String) :
    base64DecodeUserinfo s = .error "base64 decode failed: illegal base64 data" ↔
      b64decodeRaw urlIx ((queryUnescape s).getD "").toList = none ∧
      b64decodePadded stdIx (padForLen ((queryUnescape s).getD "").toList) = none ∧
      b64decodePadded urlIx (padForLen ((queryUnescape s).getD "").toList) = none := by
  simp only [base64DecodeUserinfo]
  cases h1 : b64decodeRaw urlIx ((queryUnescape s).getD "").toList with
  | some b => simp [h1]
  | none =>
    simp only [h1]
    cases h2 : b64decodePadded stdIx (padForLen ((queryUnescape s).getD "").toList) with
    | some b => simp [h2]
    | none =>
      simp only [h2]
      cases h3 : b64decodePadded urlIx (padForLen ((queryUnescape s).getD "").toList) with
      | some b => simp [h3]
      | none => simp [h3]

/-- C5 counterexample: the padded *standard* encoding of the byte `0xF8` is
`"+A=="`; the decoder percent-unescapes first, turning `+` into a space, and
all three decode attempts then fail — the claimed roundtrip for the padded
standard variant does not hold for every plaintext. -/
theorem base64_std_plus_fails :
    b64encode stdAlphabet true [248] = "+A==".toList ∧
    base64DecodeUserinfo "+A==" =
      .error "base64 decode failed: illegal base64 data" :=
  ⟨rfl, rfl⟩

/-- C5 amended: the decoder tries unpadded URL-safe, padded standard, padded
URL-safe in that order and reports the decode-failure error exactly when all
three fail; encoding with the unpadded or padded URL-safe variant always
roundtrips to the original plaintext, and encoding with the padded standard
variant roundtrips provided the encoded form contains no `+` (the decoder's
initial percent-unescape turns `+` into a space, as the counterexample
shows). -/
theorem base64_variant_roundtrip :
    (∀ bs : List Nat, (∀ b ∈ bs, b < 256) →
      base64DecodeUserinfo ⟨b64encode urlAlphabet false bs⟩ =
        .ok (bytesToString bs)) ∧
    (∀ bs : List Nat, (∀ b ∈ bs, b < 256) →
      base64DecodeUserinfo ⟨b64encode urlAlphabet true bs⟩ =
        .ok (bytesToString bs)) ∧
    (∀ bs : List Nat, (∀ b ∈ bs, b < 256) →
      '+' ∉ b64encode stdAlphabet true bs →
      base64DecodeUserinfo ⟨b64encode stdAlphabet true bs⟩ =
        .ok (bytesToString bs)) ∧
    (∀ s : String,
      base64DecodeUserinfo s = .error "base64 decode failed: illegal base64 data" ↔
        b64decodeRaw urlIx ((queryUnescape s).getD "").toList = none ∧
        b64decodePadded stdIx (padForLen ((queryUnescape s).getD "").toList) = none ∧
        b64decodePadded urlIx (padForLen ((queryUnescape s).getD "").toList) = none) :=
  ⟨decodeUserinfo_raw_roundtrip, decodeUserinfo_urlpadded_roundtrip,
   decodeUserinfo_stdpadded_roundtrip, decodeUserinfo_error_iff⟩

/-- Witness for C5's amended statement on the plaintext `"hi"` (bytes
104, 105) and, for the error characterization, on the undecodable input
`"$$"`. -/
theorem base64_variant_roundtrip_witness :
    base64DecodeUserinfo ⟨b64encode urlAlphabet false [104, 105]⟩ =
      .ok (bytesToString [104, 105]) ∧
    base64DecodeUserinfo ⟨b64encode urlAlphabet true [104, 105]⟩ =
      .ok (bytesToString [104, 105]) ∧
    base64DecodeUserinfo ⟨b64encode stdAlphabet true [104, 105]⟩ =
      .ok (bytesToString [104, 105]) ∧
    (b64decodeRaw urlIx ((queryUnescape "$$").getD "").toList = none ∧
     b64decodePadded stdIx (padForLen ((queryUnescape "$$").getD "").toList) = none ∧
     b64decodePadded urlIx (padForLen ((queryUnescape "$$").getD "").toList) = none) :=
  ⟨base64_variant_roundtrip.1 [104, 105] (by decide),
   base64_variant_roundtrip.2.1 [104, 105] (by decide),
   base64_variant_roundtrip.2.2.1 [104, 105] (by decide) (by decide),
   (base64_variant_roundtrip.2.2.2 "$$").mp rfl⟩

end VpnChecker
